import Mathlib

/-!
Verification development for the Markdown-to-PowerPoint conversion engine
(`MarkdownConverter` in the markdown-converter module).  The TypeScript
source is shallowly embedded: each private method of the converter becomes
an executable Lean definition with the same name, the mutable
`ParsingContext` becomes an explicit state record threaded through the
block handlers, and the third-party `marked` tokenizer is abstracted as a
stream of block events (`MdEvent`) delivered in document order.  JavaScript
regular expressions used by the source are embedded as equivalent
executable character-list scanners; JavaScript numbers produced by
`parseFloat` are modelled exactly (as canonical decimal fractions plus
NaN/±Infinity) — the claims proved below only involve integer-valued cells
and list lengths, where IEEE double semantics and exact decimal semantics
agree.
`JSON.parse` is an external runtime builtin and is passed in as a
parameter `jp : String → Option Json`; the converter consults it only on
brace-delimited text, and the `try/catch` around it is modelled by the
`Option`.
-/

/-- JavaScript whitespace characters (the ASCII part of `\s`, which is all
the source's inputs use). -/
def jsWsChar (c : Char) : Bool :=
  c = ' ' || c = '\t' || c = '\n' || c = '\r' || c = '\x0b' || c = '\x0c'

/-- `a.startsWith b` on character lists. -/
def startsWithL : List Char → List Char → Bool
  | [], _ => true
  | _ :: _, [] => false
  | p :: ps, c :: cs => p = c && startsWithL ps cs

/-- Does `needle` occur as a contiguous substring of `haystack`? -/
def containsL (needle : List Char) : List Char → Bool
  | [] => startsWithL needle []
  | c :: rest => startsWithL needle (c :: rest) || containsL needle rest

/-- `String.prototype.split(sep)` for a one-character separator: JS
semantics, so the result is never empty and empty fields are kept. -/
def splitOnCharL (sep : Char) : List Char → List (List Char)
  | [] => [[]]
  | c :: rest =>
    match splitOnCharL sep rest with
    | [] => [[c]]
    | g :: gs => if c = sep then [] :: g :: gs else (c :: g) :: gs

/-- `String.prototype.trim()` (ASCII whitespace). -/
def trimL (cs : List Char) : List Char :=
  ((cs.dropWhile jsWsChar).reverse.dropWhile jsWsChar).reverse

/-- JavaScript truthiness of an optional string (`undefined`, `null` and
`""` are falsy): `o || d`. -/
def jsOrStr (o : Option String) (d : String) : String :=
  match o with
  | some s => if s = "" then d else s
  | none => d

/-- Like `jsOrStr` but keeps the result optional: `a || b` where both are
optional strings. -/
def jsOrOpt (a b : Option String) : Option String :=
  match a with
  | some s => if s = "" then (match b with | some t => if t = "" then none else some t | none => none) else some s
  | none => match b with | some t => if t = "" then none else some t | none => none

/-- One step of the global regex replace `/<[^>]*>/g`: everything from a
`<` to the first following `>` is deleted; a `<` with no closing `>` is
kept.  Fuel-driven so that the definition reduces in the kernel; the fuel
is the length of the list, which bounds the number of steps. -/
def stripTagsFuel : Nat → List Char → List Char
  | 0, cs => cs
  | _ + 1, [] => []
  | f + 1, c :: rest =>
    if c = '<' && rest.contains '>' then
      stripTagsFuel f ((rest.dropWhile (· ≠ '>')).drop 1)
    else
      c :: stripTagsFuel f rest

/-- Collapse every run of whitespace to a single space (the composition of
the source's `/\n+/g → ' '` and `/\s+/g → ' '` replacements).  The boolean
records whether a whitespace run is pending before the next visible
character. -/
def collapseWsGo : Bool → List Char → List Char
  | _, [] => []
  | pend, c :: rest =>
    if jsWsChar c then collapseWsGo true rest
    else if pend then ' ' :: c :: collapseWsGo false rest
    else c :: collapseWsGo false rest

/-- `MarkdownConverter.cleanText`: strip HTML tags, normalize whitespace
runs to single spaces, trim. -/
def cleanText (s : String) : String :=
  ⟨trimL (collapseWsGo false (stripTagsFuel s.toList.length s.toList))⟩

/-- `MarkdownConverter.detectIndentLevel`: `floor(leadingSpaces / 2)` where
`leadingSpaces` is the `^(\s*)` match. -/
def detectIndentLevel (s : String) : Nat :=
  (s.toList.takeWhile jsWsChar).length / 2

/-- JavaScript numeric value as produced by `parseFloat`: NaN, ±Infinity,
or a finite value.  `parseFloat` only ever denotes exact decimal numbers,
so a finite value is modelled as the decimal `m / 10^k`, kept canonical
(`k = 0` or `10 ∤ m`), which makes structural equality of `JSNum` coincide
with numeric equality; see the header note on double rounding. -/
inductive JSNum where
  | nan : JSNum
  | posInf : JSNum
  | negInf : JSNum
  | val : Int → Nat → JSNum
deriving DecidableEq, Repr

/-- Strip factors of 10 common to numerator and denominator exponent. -/
def canonDec : Int → Nat → Int × Nat
  | m, 0 => (m, 0)
  | m, k + 1 => if m % 10 = 0 then canonDec (m / 10) k else (m, k + 1)

/-- The canonical finite JS number `m / 10^k`. -/
def mkDec (m : Int) (k : Nat) : JSNum :=
  JSNum.val (canonDec m k).1 (canonDec m k).2

/-- Natural number denoted by a digit list (most significant first). -/
def digitsVal (ds : List Char) : Nat :=
  ds.foldl (fun a c => 10 * a + (c.toNat - '0'.toNat)) 0

/-- The exponent part `(e|E)(+|-)?digits` of a JS float literal; absent or
malformed exponents contribute 0 (parseFloat stops before them). -/
def expPartVal (cs : List Char) : Int :=
  match cs with
  | c :: rest =>
    if c = 'e' || c = 'E' then
      match rest with
      | '+' :: r2 => (digitsVal (r2.takeWhile Char.isDigit) : Int)
      | '-' :: r2 =>
        if (r2.takeWhile Char.isDigit) = [] then 0
        else -(digitsVal (r2.takeWhile Char.isDigit) : Int)
      | r2 => (digitsVal (r2.takeWhile Char.isDigit) : Int)
    else 0
  | [] => 0

/-- `parseFloat` on the part after an optional sign.  The mantissa of
`ip.fp` denotes `digits(ip ++ fp) / 10^|fp|`; the exponent shifts the
decimal point. -/
def parseFloatBody (neg : Bool) (cs : List Char) : JSNum :=
  if startsWithL "Infinity".toList cs then
    if neg then JSNum.negInf else JSNum.posInf
  else
    let ip := cs.takeWhile Char.isDigit
    let r1 := cs.drop ip.length
    let fp := match r1 with
      | '.' :: r => r.takeWhile Char.isDigit
      | _ => []
    let r2 := match r1 with
      | '.' :: r => r.drop fp.length
      | _ => r1
    if ip = [] && fp = [] then JSNum.nan
    else
      let m0 : Int := (digitsVal (ip ++ fp) : Int)
      let signed : Int := if neg then -m0 else m0
      let net : Int := expPartVal r2 - (fp.length : Int)
      if 0 ≤ net then mkDec (signed * (10 : Int) ^ net.toNat) 0
      else mkDec signed (-net).toNat

/-- JavaScript `parseFloat`: skip leading whitespace, optional sign, then
the longest prefix that is a decimal (or `Infinity`) literal; `NaN` when no
prefix parses. -/
def parseFloatJS (s : String) : JSNum :=
  match s.toList.dropWhile jsWsChar with
  | '-' :: rest => parseFloatBody true rest
  | '+' :: rest => parseFloatBody false rest
  | rest => parseFloatBody false rest

/-- `!isNaN(parseFloat(s))` — the source's "cell is numeric" test. -/
def isNumericCell (s : String) : Bool :=
  parseFloatJS s ≠ JSNum.nan

/-- `parseFloat(s) || 0` — NaN (falsy) is coerced to 0; a finite 0 stays 0. -/
def parseFloatOr0 (s : String) : JSNum :=
  match parseFloatJS s with
  | JSNum.nan => JSNum.val 0 0
  | v => v

mutual

/-- JSON values, for the output of the external `JSON.parse` (mutual with
its own list/object spines so that decidable equality can be derived). -/
inductive Json where
  | null : Json
  | bool : Bool → Json
  | num : ℚ → Json
  | str : String → Json
  | arr : JsonList → Json
  | obj : JsonObj → Json
deriving DecidableEq, Repr

/-- Spine of a JSON array. -/
inductive JsonList where
  | nil : JsonList
  | cons : Json → JsonList → JsonList
deriving DecidableEq, Repr

/-- Spine of a JSON object (key/value pairs in document order). -/
inductive JsonObj where
  | nil : JsonObj
  | cons : String → Json → JsonObj → JsonObj
deriving DecidableEq, Repr

end

/-- Length of a JSON array spine. -/
def JsonList.size : JsonList → Nat
  | JsonList.nil => 0
  | JsonList.cons _ tl => tl.size + 1

/-- Property lookup on a JSON object spine; a later duplicate key wins, as
in a parsed JavaScript object. -/
def JsonObj.get : JsonObj → String → Option Json
  | JsonObj.nil, _ => none
  | JsonObj.cons k v tl, key =>
    match tl.get key with
    | some r => some r
    | none => if k = key then some v else none

/-- Property lookup on a parsed JSON value (`undefined` is `none`). -/
def jsonGet (j : Json) (k : String) : Option Json :=
  match j with
  | Json.obj kvs => kvs.get k
  | _ => none

/-- JavaScript truthiness of a JSON value. -/
def jsTruthy (j : Json) : Bool :=
  match j with
  | Json.null => false
  | Json.bool b => b
  | Json.num q => q ≠ 0
  | Json.str s => s ≠ ""
  | Json.arr _ => true
  | Json.obj _ => true

/-- `v && v.length > 0` for a looked-up JSON value: only arrays and strings
have a numeric `length` property; for anything else `length` is
`undefined` and the comparison is false. -/
def jsLengthPos : Option Json → Bool
  | some (Json.arr l) => l.size > 0
  | some (Json.str s) => s.length > 0
  | _ => false

/-- A single chart series: `{label, data}`. -/
structure Dataset where
  label : String
  data : List JSNum
deriving DecidableEq, Repr

/-- Normalized chart data `{labels, datasets}` as built by the CSV parser
and the table-to-chart converter. -/
structure ChartData where
  labels : List String
  datasets : List Dataset
deriving DecidableEq, Repr

/-- The `data` field of an emitted chart slide: either a normalized
`{labels, datasets}` record (CSV / table paths) or a raw parsed JSON value
(the `chartData.data || chartData` of the JSON path). -/
inductive ChartPayload where
  | parsed : ChartData → ChartPayload
  | fromJson : Json → ChartPayload
deriving DecidableEq, Repr

/-- The fixed styling record attached to every table slide. -/
structure TableStyling where
  headerBackground : String
  headerTextColor : String
  alternateRows : Bool
deriving DecidableEq, Repr

/-- Discriminated slide union (tag = `layout`).  Titles are optional
strings because the runtime objects the source pushes may lack the field
(e.g. a chart skeleton seeded by a `chart:` directive and flushed without
data). -/
inductive SlideCore where
  | titleS : (title : Option String) → (subtitle : Option String) →
      (author : Option String) → (date : Option String) →
      (backgroundColor : Option String) → SlideCore
  | textS : (title : Option String) → (bullets : List String) →
      (level : Option (List Nat)) → SlideCore
  | imageS : (title : Option String) → (imageUrl : Option String) →
      (imagePath : Option String) → (caption : String) → (sizing : String) → SlideCore
  | chartS : (title : Option String) → (chartType : Option String) →
      (data : Option ChartPayload) → SlideCore
  | tableS : (title : Option String) → (headers : List String) →
      (tableData : List (List String)) → (styling : TableStyling) → SlideCore
  | notesS : (title : Option String) → (content : String) → SlideCore
  | customS : (title : Option String) → (elements : Option String) → SlideCore
deriving DecidableEq, Repr

/-- An emitted slide: its variant data plus the dynamically-assigned
fields the source writes onto already-pushed slide objects (`notes` from
the notes directive, `slideNumber` from the numbering post-processor).
In the source `elements` of a custom slide is `params.elements || []`,
i.e. the raw attribute string when present — recorded here as the
optional attribute. -/
structure Slide where
  core : SlideCore
  notes : Option String
  slideNumber : Option String
deriving DecidableEq, Repr

/-- Layout of an in-flight `Partial<Slide>`: the source only ever creates
`currentSlide` with layout `'text'` (level-3 heading, list item) or
`'chart'` (chart directive). -/
inductive CSLayout where
  | text : CSLayout
  | chart : CSLayout
deriving DecidableEq, Repr

/-- The in-flight `Partial<Slide>` skeleton.  `bullets` mirrors the
source's `'bullets' in currentSlide` check in the assembler; no code path
ever sets it, so it is `none` in every reachable state. -/
structure CurrentSlide where
  layout : CSLayout
  title : Option String
  notes : Option String
  chartType : Option String
  bullets : Option (List String)
deriving DecidableEq, Repr

/-- Frontmatter metadata (the fields the converter reads). -/
structure Metadata where
  title : Option String
  subtitle : Option String
  author : Option String
  company : Option String
  subject : Option String
  date : Option String
  theme : Option String
deriving DecidableEq, Repr

/-- Empty frontmatter. -/
def mdEmpty : Metadata := ⟨none, none, none, none, none, none, none⟩

/-- `MarkdownConverterOptions` after the `{...defaults, ...options}` merge
(so every field is present). -/
structure ConverterOptions where
  slidesPerPage : Nat
  autoSplit : Bool
  theme : Option String
  includeTableOfContents : Bool
  slideNumbers : Bool
deriving DecidableEq, Repr

/-- The converter's `defaultOptions`. -/
def defaultOptions : ConverterOptions :=
  { slidesPerPage := 6, autoSplit := true, theme := some "professional",
    includeTableOfContents := false, slideNumbers := false }

/-- `ParsingContext`: the mutable conversion state, threaded explicitly. -/
structure Ctx where
  slides : List Slide
  currentSlide : Option CurrentSlide
  currentBullets : List String
  currentLevel : List Nat
  inCodeBlock : Bool
  inTable : Bool
  tableHeaders : List String
  tableRows : List (List String)
  metadata : Metadata
  sectionDepth : Nat
  slideCount : Nat
deriving DecidableEq, Repr

/-- The context as initialized at the start of `convert`. -/
def initCtx (md : Metadata) : Ctx :=
  { slides := [], currentSlide := none, currentBullets := [], currentLevel := [],
    inCodeBlock := false, inTable := false, tableHeaders := [], tableRows := [],
    metadata := md, sectionDepth := 0, slideCount := 0 }

/-- Does one candidate stretch of text split on commas into at least two
fields, all nonempty?  (`[^,]+(,[^,]+)+` on the stretch.) -/
def csvFieldsOk (cs : List Char) : Bool :=
  let fs := splitOnCharL ',' cs
  decide (2 ≤ fs.length) && fs.all fun f => !f.isEmpty

/-- Re-join a run of consecutive lines with the newlines that separated
them. -/
def joinSpan : List (List Char) → List Char
  | [] => []
  | [l] => l
  | l :: l2 :: rest => l ++ '\n' :: joinSpan (l2 :: rest)

/-- The stretches of text that start at the first of the given lines:
line 1, lines 1–2, lines 1–3, … -/
def headSpans : List (List Char) → List (List Char)
  | [] => []
  | l :: rest => l :: (headSpans rest).map fun j => l ++ '\n' :: j

/-- Every stretch of text running from some line start to some line end. -/
def allSpans : List (List Char) → List (List Char)
  | [] => []
  | l :: rest => headSpans (l :: rest) ++ allSpans rest

/-- `CHART_PATTERNS.CSV`, `/^[^,]+,[^,]+(,[^,]+)*$/m`.  In JavaScript the
negated class `[^,]` matches newlines (only `.` excludes line
terminators), while with the `m` flag `^`/`$` anchor at line starts/ends;
so the pattern matches iff some stretch of the text running from a line
start to a line end splits on commas into at least two fields, all
nonempty — a field may span line breaks.  As everywhere in this model,
`\n` is the line terminator. -/
def csvLineTest (s : String) : Bool :=
  (allSpans (splitOnCharL '\n' s.toList)).any csvFieldsOk

/-- Propositional form of a `CHART_PATTERNS.CSV` match: the text
decomposes as `u ++ v ++ w` where `v` begins at a line start (`u` empty or
ending in a newline), ends at a line end (`w` empty or starting with a
newline), and splits on commas into at least two nonempty fields. -/
def CsvSpanMatch (cs : List Char) : Prop :=
  ∃ u v w, cs = u ++ v ++ w ∧
    (u = [] ∨ ∃ u0, u = u0 ++ ['\n']) ∧
    (w = [] ∨ ∃ w0, w = '\n' :: w0) ∧
    2 ≤ (splitOnCharL ',' v).length ∧ ∀ f ∈ splitOnCharL ',' v, f ≠ []

/-- `CHART_PATTERNS.JSON`, `/^\s*\{[\s\S]*\}\s*$/`: modulo surrounding
whitespace the text starts with `{` and ends with `}` (at least two
characters). -/
def jsonShapeTest (s : String) : Bool :=
  match trimL s.toList with
  | '{' :: rest =>
    match rest.getLast? with
    | some c => c = '}'
    | none => false
  | _ => false

/-- `CHART_PATTERNS.TABLE_NUMERIC`, `/^\s*\|.*\|.*\|.*\|\s*$/m`: some line,
trimmed, starts and ends with `|` and contains at least four `|`. -/
def tableLineTest (s : String) : Bool :=
  (splitOnCharL '\n' s.toList).any fun line =>
    let t := trimL line
    startsWithL ['|'] t && (match t.getLast? with | some c => c = '|' | none => false)
      && decide (4 ≤ (t.filter (· = '|')).length)

/-- `MarkdownConverter.isChartData`: the disjunction of the three
`CHART_PATTERNS` tests. -/
def isChartData (s : String) : Bool :=
  csvLineTest s || jsonShapeTest s || tableLineTest s

/-- `datasets[k].data.push(n)`: `none` models the `TypeError` thrown when
`k` is out of range (`datasets[j-1]` is `undefined`). -/
def pushAt : List Dataset → Nat → JSNum → Option (List Dataset)
  | [], _, _ => none
  | d :: ds, 0, n => some ({ d with data := d.data ++ [n] } :: ds)
  | d :: ds, k + 1, n =>
    match pushAt ds k n with
    | some ds2 => some (d :: ds2)
    | none => none

/-- Inner loop of the CSV row parse: `for j in 1..` over the row's values
after the label (`k` is `j-1`): `if (!isNaN(num))` push `num` into dataset
`j-1`.  Non-numeric values are skipped before the array access, so they
never throw. -/
def csvRowGo : List Dataset → Nat → List String → Option (List Dataset)
  | ds, _, [] => some ds
  | ds, k, v :: vs =>
    if parseFloatJS v = JSNum.nan then csvRowGo ds (k + 1) vs
    else
      match pushAt ds k (parseFloatJS v) with
      | some ds2 => csvRowGo ds2 (k + 1) vs
      | none => none

/-- Outer loop of the CSV parse over the data rows (each already split on
commas and trimmed): pushes `values[0]` as a label, then runs the inner
loop over the remaining values. -/
def csvLinesGo : List String → List Dataset → List (List String) → Option (List String × List Dataset)
  | labels, ds, [] => some (labels, ds)
  | labels, ds, vals :: rest =>
    match csvRowGo ds 0 (vals.drop 1) with
    | some ds2 => csvLinesGo (labels ++ [vals.headD ""]) ds2 rest
    | none => none

/-- `MarkdownConverter.parseCSVToChartData`.  `none` models the thrown
`TypeError` (a data row with more parseable fields than the header has
columns), which the caller's `try/catch` swallows. -/
def parseCSVToChartData (csv : String) : Option ChartData :=
  let lines := splitOnCharL '\n' (trimL csv.toList)
  let headers := (splitOnCharL ',' (lines.headD [])).map fun h => String.mk (trimL h)
  let ds0 := (headers.drop 1).map fun h => ({ label := h, data := [] } : Dataset)
  let rows := (lines.drop 1).map fun l => (splitOnCharL ',' l).map fun v => String.mk (trimL v)
  match csvLinesGo [] ds0 rows with
  | some (labels, ds) => some { labels := labels, datasets := ds }
  | none => none

/-- The data cells of a table: every cell after the first of every row
(the source's nested `for` loops). -/
def dataCellsOf (rows : List (List String)) : List String :=
  (rows.map (List.drop 1)).flatten

/-- `MarkdownConverter.isChartTable`: needs at least two headers and two
rows, then more than 80% numeric data cells.  The float comparison
`numericCount / totalCount > 0.8` is modelled exactly as
`5 * numericCount > 4 * totalCount` (integer counts; with zero data cells
the source compares `NaN > 0.8`, which is false, matching `0 > 0`). -/
def isChartTable (headers : List String) (rows : List (List String)) : Bool :=
  if headers.length < 2 || rows.length < 2 then false
  else
    let cells := dataCellsOf rows
    let numericCount := (cells.filter isNumericCell).length
    decide (5 * numericCount > 4 * cells.length)

/-- `MarkdownConverter.createChartFromTable`.  `row[0]` / `row[i]` on a
too-short row is `undefined` in JS; `parseFloat(undefined)` is NaN exactly
like `parseFloat("")`, and `undefined || 0` is 0, so short rows are
modelled with `""` cells.  The label of an empty row cannot occur (the
table handler drops empty rows). -/
def createChartFromTable (headers : List String) (rows : List (List String)) (ctx : Ctx) : Slide :=
  let labels := rows.map fun r => r.headD ""
  let datasets := (headers.enum.drop 1).map fun p =>
    ({ label := p.2, data := rows.map fun r => parseFloatOr0 (r.getD p.1 "") } : Dataset)
  { core := SlideCore.chartS
      (some (jsOrStr (ctx.currentSlide.bind CurrentSlide.title) "Data Chart"))
      (some "bar")
      (some (ChartPayload.parsed { labels := labels, datasets := datasets })),
    notes := none, slideNumber := none }

/-- One position of the `/<!--\s*(slide:|notes:|chart:)/` test. -/
def commentKwAt (cs : List Char) : Bool :=
  startsWithL "<!--".toList cs &&
    (let r := (cs.drop 4).dropWhile jsWsChar
     startsWithL "slide:".toList r || startsWithL "notes:".toList r ||
       startsWithL "chart:".toList r)

/-- Unanchored search for the directive-comment pattern. -/
def hasCommentKw : List Char → Bool
  | [] => false
  | c :: rest => commentKwAt (c :: rest) || hasCommentKw rest

/-- `MarkdownConverter.isDirective`: the comment pattern anywhere, or the
anchored `/^:::(slide|notes|chart)/`. -/
def isDirective (s : String) : Bool :=
  hasCommentKw s.toList ||
    startsWithL ":::slide".toList s.toList ||
    startsWithL ":::notes".toList s.toList ||
    startsWithL ":::chart".toList s.toList

/-- Does `\s*-->` match here?  (The whitespace may include newlines.) -/
def closesComment (cs : List Char) : Bool :=
  startsWithL "-->".toList (cs.dropWhile jsWsChar)

/-- The lazy `(.+?)\s*-->` after its first character: grow the capture one
non-line-terminator character at a time, stopping at the first point where
`\s*-->` closes the comment. -/
def lazyGo : List Char → List Char → Option (List Char)
  | accRev, [] => if closesComment [] then some accRev.reverse else none
  | accRev, c :: rest =>
    if closesComment (c :: rest) then some accRev.reverse
    else if c = '\n' || c = '\r' then none
    else lazyGo (c :: accRev) rest

/-- `(.+?)\s*-->`: at least one character, lazily extended. -/
def captureLazy : List Char → Option (List Char)
  | [] => none
  | c :: rest => if c = '\n' || c = '\r' then none else lazyGo [c] rest

/-- Backtracking for the greedy `\s*` between the keyword and the capture:
try consuming `k` whitespace characters, largest `k` first (the capture
itself may then start with whitespace). -/
def tryWsSplits (cs : List Char) : Nat → Option (List Char)
  | 0 => captureLazy cs
  | k + 1 =>
    match captureLazy (cs.drop (k + 1)) with
    | some r => some r
    | none => tryWsSplits cs k

/-- Match `\s*(.+?)\s*-->` with regex backtracking semantics. -/
def captureAfterKw (cs : List Char) : Option (List Char) :=
  tryWsSplits cs (cs.takeWhile jsWsChar).length

/-- Try the whole `<!--\s*<kw>\s*(.+?)\s*-->` pattern anchored at this
position. -/
def matchCommentAt (kw : List Char) (cs : List Char) : Option (List Char) :=
  if startsWithL "<!--".toList cs then
    let r := (cs.drop 4).dropWhile jsWsChar
    if startsWithL kw r then captureAfterKw (r.drop kw.length) else none
  else none

/-- Leftmost match of the directive-comment pattern. -/
def matchCommentGo (kw : List Char) : List Char → Option (List Char)
  | [] => none
  | c :: rest =>
    match matchCommentAt kw (c :: rest) with
    | some r => some r
    | none => matchCommentGo kw rest

/-- `text.match(/<!--\s*<kw>\s*(.+?)\s*-->/)`, returning capture group 1. -/
def matchComment (kw : String) (s : String) : Option String :=
  (matchCommentGo kw.toList s.toList).map fun cs => String.mk cs

/-- `\w` of the attribute scanner. -/
def isWordChar (c : Char) : Bool := c.isAlphanum || c = '_'

/-- Try the `(\w+)="([^"]+)"` pattern anchored at this position, returning
key, value and the rest of the input after the match. -/
def tryParamAt (cs : List Char) : Option (String × String × List Char) :=
  let ks := cs.takeWhile isWordChar
  if ks.isEmpty then none
  else
    match cs.drop ks.length with
    | '=' :: '"' :: r2 =>
      let vs := r2.takeWhile (· ≠ '"')
      if vs.isEmpty then none
      else
        match r2.drop vs.length with
        | '"' :: r3 => some (String.mk ks, String.mk vs, r3)
        | _ => none
    | _ => none

/-- The global `regex.exec` loop: successive non-overlapping leftmost
matches. -/
def scanParamsGo : Nat → List Char → List (String × String)
  | 0, _ => []
  | _ + 1, [] => []
  | f + 1, c :: rest =>
    match tryParamAt (c :: rest) with
    | some (k, v, rem) => (k, v) :: scanParamsGo f rem
    | none => scanParamsGo f rest

/-- `MarkdownConverter.parseDirectiveParams`: scan `key="value"` pairs. -/
def parseDirectiveParams (s : String) : List (String × String) :=
  scanParamsGo s.toList.length s.toList

/-- Read a directive parameter; a later duplicate key overwrites an
earlier one, as in the source's `result[key] = value`. -/
def getParam (ps : List (String × String)) (k : String) : Option String :=
  ps.foldl (fun acc p => if p.1 = k then some p.2 else acc) none

/-- Push an in-flight `Partial<Slide>` wholesale (the assembler's
`context.slides.push(context.currentSlide as Slide)` branch). -/
def toSlide (cs : CurrentSlide) : Slide :=
  match cs.layout with
  | CSLayout.text =>
    { core := SlideCore.textS cs.title (cs.bullets.getD []) none,
      notes := cs.notes, slideNumber := none }
  | CSLayout.chart =>
    { core := SlideCore.chartS cs.title cs.chartType none,
      notes := cs.notes, slideNumber := none }

/-- `MarkdownConverter.flushCurrentSlide` (the Assembler): build a text
slide from pending bullets, else push a pending non-empty skeleton, else
discard an empty text skeleton (the "no empty text slides" branch). -/
def flushCurrentSlide (ctx : Ctx) : Ctx :=
  if ctx.currentBullets.length > 0 then
    let textSlide : Slide :=
      { core := SlideCore.textS
          (some (jsOrStr (ctx.currentSlide.bind CurrentSlide.title) "Content"))
          ctx.currentBullets
          (if ctx.currentLevel.length > 0 then some ctx.currentLevel else none),
        notes := ctx.currentSlide.bind CurrentSlide.notes,
        slideNumber := none }
    { ctx with
        slides := ctx.slides ++ [textSlide],
        currentBullets := [], currentLevel := [], currentSlide := none }
  else
    match ctx.currentSlide with
    | some cs =>
      if cs.layout = CSLayout.text ∧ (cs.bullets = none ∨ cs.bullets = some []) then
        { ctx with currentSlide := none }
      else
        { ctx with slides := ctx.slides ++ [toSlide cs], currentSlide := none }
    | none => ctx

/-- `renderer.heading`: flush, then emit a title slide (level 1), a
section divider (level 2), or handle a level-3 heading.  `clock` is the
value of `new Date().toLocaleDateString()` at conversion time. -/
def headingHandler (clock : String) (text : String) (level : Nat) (ctx : Ctx) : Ctx :=
  let ctx1 := flushCurrentSlide ctx
  if level = 1 then
    { ctx1 with slides := ctx1.slides ++
      [{ core := SlideCore.titleS (some (cleanText text)) ctx1.metadata.subtitle
           ctx1.metadata.author (some (jsOrStr ctx1.metadata.date clock)) none,
         notes := none, slideNumber := none }] }
  else if level = 2 then
    { ctx1 with
        slides := ctx1.slides ++
          [{ core := SlideCore.titleS (some (cleanText text)) none none none (some "#2C3E50"),
             notes := none, slideNumber := none }],
        sectionDepth := 2 }
  else if level = 3 then
    if ctx1.currentBullets.length > 0 then
      { ctx1 with
          currentBullets := ctx1.currentBullets ++ ["**" ++ cleanText text ++ "**"],
          currentLevel := ctx1.currentLevel ++ [0] }
    else
      { ctx1 with
          currentSlide := some
            { layout := CSLayout.text, title := some (cleanText text),
              notes := none, chartType := none, bullets := none },
          currentBullets := [], currentLevel := [] }
  else ctx1

/-- `context.slides[context.slides.length - 1].notes = n` under the
`slides.length > 0` guard. -/
def setLastNotes (n : String) : List Slide → List Slide
  | [] => []
  | [s] => [{ s with notes := some n }]
  | s :: s2 :: rest => s :: setLastNotes n (s2 :: rest)

/-- `MarkdownConverter.processDirective`: `slide:` / `notes:` / `chart:`
comments, tried in that order. -/
def processDirective (text : String) (ctx : Ctx) : Ctx :=
  match matchComment "slide:" text with
  | some content =>
    let params := parseDirectiveParams content
    if getParam params "type" = some "custom" then
      let ctx1 := flushCurrentSlide ctx
      { ctx1 with slides := ctx1.slides ++
        [{ core := SlideCore.customS
             (some (jsOrStr (getParam params "title") "Custom Slide"))
             (getParam params "elements"),
           notes := none, slideNumber := none }] }
    else ctx
  | none =>
    match matchComment "notes:" text with
    | some content =>
      let notesTxt := String.mk (trimL content.toList)
      match ctx.currentSlide with
      | some cs => { ctx with currentSlide := some { cs with notes := some notesTxt } }
      | none => { ctx with slides := setLastNotes notesTxt ctx.slides }
    | none =>
      match matchComment "chart:" text with
      | some content =>
        let params := parseDirectiveParams content
        { ctx with
            currentSlide := some
              { layout := CSLayout.chart, title := none, notes := none,
                chartType := some (jsOrStr (getParam params "type") "bar"),
                bullets := none } }
      | none => ctx

/-- `chartData && chartData.datasets && chartData.datasets.length > 0` for
a parsed JSON value. -/
def jsonChartUsable (j : Json) : Bool :=
  jsTruthy j && jsLengthPos (jsonGet j "datasets")

/-- `chartData.type || 'bar'` for the JSON path.  A truthy non-string
`type` is coerced to `"bar"` in the model (the source would store the raw
value; no behavior proved below inspects that case). -/
def jsonChartType (j : Json) : String :=
  match jsonGet j "type" with
  | some (Json.str s) => if s = "" then "bar" else s
  | _ => "bar"

/-- `chartData.data || chartData` for the JSON path. -/
def jsonChartPayload (j : Json) : ChartPayload :=
  match jsonGet j "data" with
  | some d => if jsTruthy d then ChartPayload.fromJson d else ChartPayload.fromJson j
  | none => ChartPayload.fromJson j

/-- `MarkdownConverter.processChartData`: flush, then try JSON, then CSV;
parse failures (the `try/catch`) and unusable results leave the context
exactly as flushed. -/
def processChartData (jp : String → Option Json) (text : String) (ctx : Ctx) : Ctx :=
  let ctx1 := flushCurrentSlide ctx
  if jsonShapeTest text then
    match jp text with
    | none => ctx1
    | some j =>
      if jsonChartUsable j then
        { ctx1 with slides := ctx1.slides ++
          [{ core := SlideCore.chartS
               (some (jsOrStr (ctx1.currentSlide.bind CurrentSlide.title) "Chart"))
               (some (jsonChartType j)) (some (jsonChartPayload j)),
             notes := none, slideNumber := none }] }
      else ctx1
  else if csvLineTest text then
    match parseCSVToChartData text with
    | none => ctx1
    | some cd =>
      if cd.datasets.length > 0 then
        { ctx1 with slides := ctx1.slides ++
          [{ core := SlideCore.chartS
               (some (jsOrStr (ctx1.currentSlide.bind CurrentSlide.title) "Chart"))
               (some "bar") (some (ChartPayload.parsed cd)),
             notes := none, slideNumber := none }] }
      else ctx1
  else ctx1

/-- `renderer.paragraph`: directive check, chart-data check, then append
as a bullet — but only when a slide is in flight or bullets are already
pending. -/
def paragraphHandler (opts : ConverterOptions) (jp : String → Option Json)
    (text : String) (ctx : Ctx) : Ctx :=
  if isDirective text then processDirective text ctx
  else if isChartData text then processChartData jp text ctx
  else if ctx.currentSlide.isSome || ctx.currentBullets.length > 0 then
    let cleaned := cleanText text
    if cleaned ≠ "" then
      let ctx1 :=
        { ctx with
            currentBullets := ctx.currentBullets ++ [cleaned],
            currentLevel := ctx.currentLevel ++ [0] }
      if opts.autoSplit ∧ opts.slidesPerPage ≤ ctx1.currentBullets.length then
        flushCurrentSlide ctx1
      else ctx1
    else ctx
  else ctx

/-- The lazily-created `{layout: 'text', title: 'Content'}` skeleton. -/
def contentSkeleton : CurrentSlide :=
  { layout := CSLayout.text, title := some "Content",
    notes := none, chartType := none, bullets := none }

/-- `renderer.listitem`: create the `Content` skeleton if none exists,
append the cleaned text with its indent level, auto-split at the
threshold. -/
def listitemHandler (opts : ConverterOptions) (text : String) (ctx : Ctx) : Ctx :=
  let ctx0 :=
    match ctx.currentSlide with
    | none => { ctx with currentSlide := some contentSkeleton }
    | some _ => ctx
  let ctx1 :=
    { ctx0 with
        currentBullets := ctx0.currentBullets ++ [cleanText text],
        currentLevel := ctx0.currentLevel ++ [detectIndentLevel text] }
  if opts.autoSplit ∧ opts.slidesPerPage ≤ ctx1.currentBullets.length then
    flushCurrentSlide ctx1
  else ctx1

/-- The fixed styling attached to every emitted table slide. -/
def defaultTableStyling : TableStyling :=
  { headerBackground := "#2C3E50", headerTextColor := "#FFFFFF", alternateRows := true }

/-- `renderer.table`: always a slide boundary; classify as chart or table.
The event carries the header/row cells as extracted by the source's
`parseHTMLTableRow` (which also drops empty rows) — the HTML-string side
of that adapter belongs to the external tokenizer. -/
def tableHandler (headers : List String) (rows : List (List String)) (ctx : Ctx) : Ctx :=
  let ctx1 := flushCurrentSlide ctx
  let ctx2 :=
    if isChartTable headers rows then
      { ctx1 with slides := ctx1.slides ++ [createChartFromTable headers rows ctx1] }
    else
      { ctx1 with slides := ctx1.slides ++
        [{ core := SlideCore.tableS
             (some (jsOrStr (ctx1.currentSlide.bind CurrentSlide.title) "Data Table"))
             headers rows defaultTableStyling,
           notes := none, slideNumber := none }] }
  { ctx2 with currentSlide := none }

/-- `renderer.image`: always flush, then one standalone image slide. -/
def imageHandler (href : String) (title : Option String) (text : String) (ctx : Ctx) : Ctx :=
  let ctx1 := flushCurrentSlide ctx
  let startsHttp := startsWithL "http".toList href.toList
  { ctx1 with slides := ctx1.slides ++
    [{ core := SlideCore.imageS (some (jsOrStr title (jsOrStr (some text) "Image")))
         (if startsHttp then some href else none)
         (if startsHttp then none else some href)
         text "contain",
       notes := none, slideNumber := none }] }

/-- `renderer.code`: chart data (by content or by `chart`/`csv` language
tag) goes to the chart processor; anything else becomes a notes slide. -/
def codeHandler (jp : String → Option Json) (codeStr : String)
    (language : Option String) (ctx : Ctx) : Ctx :=
  if isChartData codeStr || language = some "chart" || language = some "csv" then
    processChartData jp codeStr ctx
  else
    let ctx1 := flushCurrentSlide ctx
    { ctx1 with slides := ctx1.slides ++
      [{ core := SlideCore.notesS (some ("Code: " ++ jsOrStr language "snippet")) codeStr,
         notes := none, slideNumber := none }] }

/-- `renderer.blockquote`: always a standalone notes slide. -/
def blockquoteHandler (quote : String) (ctx : Ctx) : Ctx :=
  let ctx1 := flushCurrentSlide ctx
  { ctx1 with slides := ctx1.slides ++
    [{ core := SlideCore.notesS (some "Note") (cleanText quote),
       notes := none, slideNumber := none }] }

/-- `renderer.html`: raw HTML containing `slide:` or `notes:` goes to the
directive processor. -/
def htmlHandler (content : String) (ctx : Ctx) : Ctx :=
  if containsL "slide:".toList content.toList ||
      containsL "notes:".toList content.toList then
    processDirective content ctx
  else ctx

/-- Block-level document events, as delivered by the `marked` tokenizer to
the custom renderer, in document order. -/
inductive MdEvent where
  | heading : String → Nat → MdEvent
  | paragraph : String → MdEvent
  | listItem : String → MdEvent
  | table : List String → List (List String) → MdEvent
  | image : (href : String) → (title : Option String) → (text : String) → MdEvent
  | code : (code : String) → (language : Option String) → MdEvent
  | blockquote : String → MdEvent
  | hr : MdEvent
  | html : String → MdEvent
deriving DecidableEq, Repr

/-- Dispatch one block event to its handler. -/
def step (opts : ConverterOptions) (jp : String → Option Json) (clock : String)
    (ctx : Ctx) : MdEvent → Ctx
  | MdEvent.heading text level => headingHandler clock text level ctx
  | MdEvent.paragraph text => paragraphHandler opts jp text ctx
  | MdEvent.listItem text => listitemHandler opts text ctx
  | MdEvent.table headers rows => tableHandler headers rows ctx
  | MdEvent.image href title text => imageHandler href title text ctx
  | MdEvent.code c lang => codeHandler jp c lang ctx
  | MdEvent.blockquote q => blockquoteHandler q ctx
  | MdEvent.hr => flushCurrentSlide ctx
  | MdEvent.html h => htmlHandler h ctx

/-- Stream the document's block events through the handlers. -/
def runEvents (opts : ConverterOptions) (jp : String → Option Json) (clock : String)
    (events : List MdEvent) (ctx : Ctx) : Ctx :=
  events.foldl (step opts jp clock) ctx

/-- A resolved predefined theme. -/
structure Theme where
  primaryColor : String
  secondaryColor : String
  fontFamily : String
deriving DecidableEq, Repr

/-- `MarkdownConverter.parseTheme` on a theme name (custom theme objects,
which the source passes through untouched, are outside the model). -/
def parseTheme (name : String) : Theme :=
  if name = "professional" then ⟨"#2C3E50", "#34495E", "Arial"⟩
  else if name = "dark" then ⟨"#1A1A1A", "#2C2C2C", "Helvetica"⟩
  else if name = "light" then ⟨"#FFFFFF", "#F5F5F5", "Calibri"⟩
  else if name = "academic" then ⟨"#003366", "#005599", "Times New Roman"⟩
  else ⟨"#2C3E50", "#34495E", "Arial"⟩

/-- The converter's output value. -/
structure Presentation where
  title : String
  author : Option String
  company : Option String
  subject : Option String
  theme : Option Theme
  slides : List Slide
deriving DecidableEq, Repr

/-- `slide.layout === 'title'`. -/
def isTitleLayout (s : Slide) : Bool :=
  match s.core with
  | SlideCore.titleS .. => true
  | _ => false

/-- Titles of section-divider slides (title layout with a truthy
`backgroundColor`), in document order.  The source pushes the slide's
`title` field verbatim; our constructors always populate it, so the
`getD ""` default is never exercised. -/
def sectionTitlesOf (slides : List Slide) : List String :=
  slides.foldr
    (fun s acc =>
      match s.core with
      | SlideCore.titleS t _ _ _ (some bg) => if bg ≠ "" then t.getD "" :: acc else acc
      | _ => acc)
    []

/-- `MarkdownConverter.insertTableOfContents`. -/
def insertTableOfContents (p : Presentation) : Presentation :=
  let tocBullets := sectionTitlesOf p.slides
  if tocBullets.length > 0 then
    let tocSlide : Slide :=
      { core := SlideCore.textS (some "Table of Contents") tocBullets none,
        notes := none, slideNumber := none }
    let insertIndex :=
      match p.slides.findIdx? isTitleLayout with
      | some i => i + 1
      | none => 1
    { p with slides := p.slides.take insertIndex ++ [tocSlide] ++ p.slides.drop insertIndex }
  else p

/-- `MarkdownConverter.addSlideNumbers`: annotate every non-title slide
with `"<n> / <total>"`. -/
def addSlideNumbers (p : Presentation) : Presentation :=
  { p with slides := p.slides.enum.map fun q =>
      if isTitleLayout q.2 then q.2
      else { q.2 with slideNumber := some (toString (q.1 + 1) ++ " / " ++ toString p.slides.length) } }

/-- `MarkdownConverter.convert`: run the event stream from a fresh
context, final flush, wrap in a `Presentation`, then the optional
post-processors.  Frontmatter extraction and the `marked` parse are the
external tokenizer's side; `clock` is the date string the heading handler
would read from `new Date()`. -/
def convert (opts : ConverterOptions) (jp : String → Option Json) (clock : String)
    (md : Metadata) (events : List MdEvent) : Presentation :=
  let ctx := flushCurrentSlide (runEvents opts jp clock events (initCtx md))
  let p0 : Presentation :=
    { title := jsOrStr md.title "Presentation", author := md.author,
      company := md.company, subject := md.subject,
      theme := (jsOrOpt md.theme opts.theme).map parseTheme,
      slides := ctx.slides }
  let p1 := if opts.includeTableOfContents then insertTableOfContents p0 else p0
  if opts.slideNumbers then addSlideNumbers p1 else p1

/-- A `JSON.parse` oracle that rejects everything — used to instantiate
theorems whose inputs never reach the JSON path (or reach it only to
fail). -/
def jpNone : String → Option Json := fun _ => none

/-- Modelled from the spec's words, for comparison with the source's
`isChartData` (§4.6): "text … parses … as CSV (every non-empty line has
the same number of comma-separated fields as the header line, and at
least one header besides the first column)". -/
def specCsvShaped (s : String) : Bool :=
  let lines := splitOnCharL '\n' s.toList
  let hdr := splitOnCharL ',' (lines.headD [])
  decide (2 ≤ hdr.length) &&
    lines.all fun l => l.isEmpty || (splitOnCharL ',' l).length == hdr.length

/-- Modelled from the spec's words: chart data iff the text parses as a
JSON object or is CSV-shaped in the spec's sense. -/
def specChartData (jp : String → Option Json) (s : String) : Bool :=
  (match jp s with
   | some (Json.obj _) => true
   | _ => false) || specCsvShaped s

/-- Greedy grouping of bullet/level pairs into chunks of six — the shape
the auto-split loop (threshold 6, the default `slidesPerPage`) produces.
`acc` is the partial chunk already accumulated. -/
def chunk6Go : List (String × Nat) → List (String × Nat) → List (List (String × Nat))
  | acc, [] => if acc.isEmpty then [] else [acc]
  | acc, p :: rest =>
    if 6 ≤ (acc ++ [p]).length then (acc ++ [p]) :: chunk6Go [] rest
    else chunk6Go (acc ++ [p]) rest

/-- The text slide the assembler builds from a nonempty chunk of pending
bullet/level pairs accumulated under the lazily-created `Content`
skeleton. -/
def mkContentSlide (c : List (String × Nat)) : Slide :=
  { core := SlideCore.textS (some "Content") (c.map Prod.fst) (some (c.map Prod.snd)),
    notes := none, slideNumber := none }

/-- The bullets of a text slide (empty for any other layout). -/
def slideBullets (s : Slide) : List String :=
  match s.core with
  | SlideCore.textS _ bs _ => bs
  | _ => []

/-- The empty-slide invariant for one slide: a text-layout slide has a
nonempty bullets list. -/
def slideTextOk (s : Slide) : Prop :=
  ∀ t bs lv, s.core = SlideCore.textS t bs lv → bs ≠ []

/-- The empty-slide invariant over all slides emitted so far. -/
def ctxSlidesOk (ctx : Ctx) : Prop :=
  ∀ s ∈ ctx.slides, slideTextOk s

/-- Decidable form of the chart-data invariant on one slide: every dataset
of a normalized chart payload is exactly as long as the labels list. -/
def chartInvB (s : Slide) : Bool :=
  match s.core with
  | SlideCore.chartS _ _ (some (ChartPayload.parsed cd)) =>
    cd.datasets.all fun d => d.data.length == cd.labels.length
  | _ => true

/-- The `data` field of a chart slide (`none` for other layouts). -/
def chartPayloadOf (s : Slide) : Option ChartPayload :=
  match s.core with
  | SlideCore.chartS _ _ p => p
  | _ => none

/-- C10: the assembler's flush operation is idempotent: for every parsing
context, flushing twice produces exactly the same context (and hence the
same slides sequence) as flushing once. -/
theorem flushCurrentSlide_idempotent (ctx : Ctx) :
    flushCurrentSlide (flushCurrentSlide ctx) = flushCurrentSlide ctx := by
  by_cases hb : ctx.currentBullets.length > 0
  · simp [flushCurrentSlide, hb]
  · cases hcs : ctx.currentSlide with
    | none => simp [flushCurrentSlide, hb, hcs]
    | some cs =>
      by_cases hd : cs.layout = CSLayout.text ∧ (cs.bullets = none ∨ cs.bullets = some [])
      · simp [flushCurrentSlide, hb, hcs, hd]
      · simp [flushCurrentSlide, hb, hcs, hd]

/-- C2 (evaluation at the failing input): a level-3 heading arriving while
a bullet is pending does NOT append the heading as a bold bullet — the
handler flushes first (so the pending-bullets branch of the level-3 case
is unreachable), emitting the pending bullet as its own slide and starting
a fresh skeleton titled by the heading.  The claimed behavior would give
one slide titled "Intro" with bullets
`["Point one", "**Details**", "Point two"]`; the code gives two slides. -/
theorem h3_heading_flushes_pending_bullets :
    (convert defaultOptions jpNone "" mdEmpty
        [MdEvent.heading "Intro" 3, MdEvent.paragraph "Point one",
         MdEvent.heading "Details" 3, MdEvent.paragraph "Point two"]).slides =
      [{ core := SlideCore.textS (some "Intro") ["Point one"] (some [0]),
         notes := none, slideNumber := none },
       { core := SlideCore.textS (some "Details") ["Point two"] (some [0]),
         notes := none, slideNumber := none }] ∧
    (headingHandler "" "Details" 3
        { initCtx mdEmpty with
            currentBullets := ["Point one"], currentLevel := [0],
            currentSlide := some
              { layout := CSLayout.text, title := some "Intro",
                notes := none, chartType := none, bullets := none } }).currentBullets = [] := by
  constructor
  · decide
  · decide

/-- C3 (counterexample): the chart-data detector is not the spec's
"JSON object or consistent CSV" test: `"a,b\nccc"` is accepted by the code
(one line of the text matches the per-line CSV regex) although it is not
CSV-shaped in the spec's sense and does not parse as JSON, and the
ordinary prose paragraph `"Hello, world"` — a comma on one line — is also
accepted, contradicting the claim that such a paragraph is not classified
as chart data. -/
theorem isChartData_not_spec_shaped :
    isChartData "a,b\nccc" = true ∧ specCsvShaped "a,b\nccc" = false ∧
    isChartData "Hello, world" = true := by
  refine ⟨by decide, by decide, by decide⟩

/-- C6 (counterexample): a CSV block whose data cell is not numeric
produces a chart slide whose dataset is shorter than its labels list
(the non-numeric cell is skipped, not padded): `"Month,Sales\nJan,abc"`
yields labels `["Jan"]` but dataset `Sales` with data `[]`. -/
theorem csv_chart_slide_violates_length_invariant :
    (processChartData jpNone "Month,Sales\nJan,abc" (initCtx mdEmpty)).slides =
      [{ core := SlideCore.chartS (some "Chart") (some "bar")
           (some (ChartPayload.parsed
             { labels := ["Jan"], datasets := [{ label := "Sales", data := [] }] })),
         notes := none, slideNumber := none }] ∧
    ((processChartData jpNone "Month,Sales\nJan,abc" (initCtx mdEmpty)).slides.all
        chartInvB) = false := by
  refine ⟨by decide, by decide⟩

/-- C7 (counterexample): conversion is not independent of the wall clock:
with no frontmatter date, an H1 title slide's `date` field is
`new Date().toLocaleDateString()`, so two runs at different dates give
structurally different presentations. -/
theorem convert_depends_on_clock :
    convert defaultOptions jpNone "2025-01-01" mdEmpty [MdEvent.heading "T" 1] ≠
      convert defaultOptions jpNone "2025-01-02" mdEmpty [MdEvent.heading "T" 1] := by
  decide

/-- C9 (counterexample): a non-directive, non-chart paragraph arriving
with no slide in flight and no pending bullets is dropped, not turned
into a bullet: the handler leaves the context untouched and the
conversion of a lone paragraph yields no slides at all. -/
theorem orphan_paragraph_dropped :
    step defaultOptions jpNone "" (initCtx mdEmpty) (MdEvent.paragraph "hello") =
      initCtx mdEmpty ∧
    (convert defaultOptions jpNone "" mdEmpty [MdEvent.paragraph "hello"]).slides = [] := by
  refine ⟨by decide, by decide⟩

/-- C4 (counterexample): the ">80% numeric" characterization is not
exact: a fully numeric single-row table (one data cell, 100% numeric) is
still rejected because the classifier also requires at least two rows. -/
theorem one_row_numeric_table_not_chart :
    isChartTable ["Month", "Sales"] [["Jan", "100"]] = false ∧
    isNumericCell "100" = true := by
  refine ⟨by decide, by decide⟩

/-- C8: processing a malformed chart-data block is total and atomic: if
the text is brace-shaped but `JSON.parse` fails, or it is CSV-shaped but
the CSV parse throws or yields no datasets, then `processChartData`
returns exactly the flushed context — no slide is emitted for the block,
the previously accumulated slides are extended only by the flush of the
pending (pre-block) content, and conversion continues. -/
theorem processChartData_atomic_on_failure (jp : String → Option Json)
    (text : String) (ctx : Ctx)
    (h : (jsonShapeTest text = true ∧ jp text = none) ∨
         (jsonShapeTest text = false ∧ csvLineTest text = true ∧
           (parseCSVToChartData text = none ∨
             ∃ cd, parseCSVToChartData text = some cd ∧ cd.datasets = []))) :
    processChartData jp text ctx = flushCurrentSlide ctx ∧
    ctx.slides <+: (processChartData jp text ctx).slides := by
  have hflush : ctx.slides <+: (flushCurrentSlide ctx).slides := by
    by_cases hb : ctx.currentBullets.length > 0
    · simp [flushCurrentSlide, hb]
    · cases hcs : ctx.currentSlide with
      | none => simp [flushCurrentSlide, hb, hcs]
      | some cs =>
        by_cases hd : cs.layout = CSLayout.text ∧ (cs.bullets = none ∨ cs.bullets = some [])
        · simp [flushCurrentSlide, hb, hcs, hd]
        · simp [flushCurrentSlide, hb, hcs, hd]
  rcases h with ⟨hj, hp⟩ | ⟨hj, hc, hcsv⟩
  · have he : processChartData jp text ctx = flushCurrentSlide ctx := by
      simp [processChartData, hj, hp]
    exact ⟨he, he ▸ hflush⟩
  · rcases hcsv with hn | ⟨cd, hcd, hds⟩
    · have he : processChartData jp text ctx = flushCurrentSlide ctx := by
        simp [processChartData, hj, hc, hn]
      exact ⟨he, he ▸ hflush⟩
    · have he : processChartData jp text ctx = flushCurrentSlide ctx := by
        simp [processChartData, hj, hc, hcd, hds]
      exact ⟨he, he ▸ hflush⟩

/-- Witness for C8 at two concrete malformed blocks: `"{oops}"` is
brace-shaped but is not valid JSON (the oracle rejects it), and
`"x\na,\nb"` matches the CSV pattern across lines yet parses to a chart
with no datasets; both are dropped without emitting a slide. -/
theorem processChartData_atomic_witness :
    (processChartData jpNone "{oops}" (initCtx mdEmpty) =
        flushCurrentSlide (initCtx mdEmpty) ∧
      (initCtx mdEmpty).slides <+:
        (processChartData jpNone "{oops}" (initCtx mdEmpty)).slides) ∧
    (processChartData jpNone "x\na,\nb" (initCtx mdEmpty) =
        flushCurrentSlide (initCtx mdEmpty) ∧
      (initCtx mdEmpty).slides <+:
        (processChartData jpNone "x\na,\nb" (initCtx mdEmpty)).slides) :=
  ⟨processChartData_atomic_on_failure jpNone "{oops}" (initCtx mdEmpty)
      (Or.inl ⟨by decide, rfl⟩),
    processChartData_atomic_on_failure jpNone "x\na,\nb" (initCtx mdEmpty)
      (Or.inr ⟨by decide, by decide,
        Or.inr ⟨⟨["a", "b"], []⟩, by decide, rfl⟩⟩)⟩

/-- C4 (amended): a table is classified as chart-eligible exactly when it
has at least two header cells, at least two rows, and more than 80% of the
data cells (cells after the first of each row) parse as numeric; in
particular a table with fewer than two rows or fewer than two headers is
never chart-eligible, and the `["Month","Sales","Profit"]` example (4/4
numeric data cells) becomes a chart slide with labels `["Jan","Feb"]` and
datasets `Sales=[100,120]`, `Profit=[20,25]`. -/
theorem isChartTable_characterization :
    (∀ (headers : List String) (rows : List (List String)),
        rows.length < 2 → isChartTable headers rows = false) ∧
    (∀ (headers : List String) (rows : List (List String)),
        headers.length < 2 → isChartTable headers rows = false) ∧
    (∀ (headers : List String) (rows : List (List String)),
        2 ≤ headers.length → 2 ≤ rows.length →
        (isChartTable headers rows = true ↔
          5 * ((dataCellsOf rows).filter isNumericCell).length >
            4 * (dataCellsOf rows).length)) ∧
    (step defaultOptions jpNone "" (initCtx mdEmpty)
        (MdEvent.table ["Month", "Sales", "Profit"]
          [["Jan", "100", "20"], ["Feb", "120", "25"]])).slides =
      [{ core := SlideCore.chartS (some "Data Chart") (some "bar")
           (some (ChartPayload.parsed
             { labels := ["Jan", "Feb"],
               datasets := [{ label := "Sales", data := [JSNum.val 100 0, JSNum.val 120 0] },
                            { label := "Profit", data := [JSNum.val 20 0, JSNum.val 25 0] }] })),
         notes := none, slideNumber := none }] := by
  refine ⟨?_, ?_, ?_, by decide⟩
  · intro headers rows hr
    simp [isChartTable, hr]
  · intro headers rows hh
    simp [isChartTable, hh]
  · intro headers rows hh hr
    have h1 : ¬ headers.length < 2 := by omega
    have h2 : ¬ rows.length < 2 := by omega
    simp [isChartTable, h1, h2]

/-- Witness for C4: the sub-threshold preconditions fire on a concrete
one-row table. -/
theorem isChartTable_characterization_witness :
    isChartTable ["A", "B"] [["x", "1"]] = false :=
  isChartTable_characterization.1 ["A", "B"] [["x", "1"]] (by decide)

/-- `String.prototype.split` never returns an empty array. -/
theorem splitOnCharL_ne_nil (sep : Char) (cs : List Char) : splitOnCharL sep cs ≠ [] := by
  induction cs with
  | nil => simp [splitOnCharL]
  | cons c rest ih =>
    simp only [splitOnCharL]
    rcases h : splitOnCharL sep rest with _ | ⟨g, gs⟩
    · exact absurd h ih
    · by_cases hc : c = sep <;> simp [hc]

/-- Splitting a separator-free list returns the single field. -/
theorem splitOnCharL_of_not_mem (sep : Char) (cs : List Char) (h : sep ∉ cs) :
    splitOnCharL sep cs = [cs] := by
  induction cs with
  | nil => rfl
  | cons c rest ih =>
    have hc : ¬ c = sep := fun hh => h (hh ▸ List.mem_cons_self c rest)
    have hr : sep ∉ rest := fun hh => h (List.mem_cons_of_mem c hh)
    simp [splitOnCharL, ih hr, hc]

/-- Splitting peels off a separator-free first field. -/
theorem splitOnCharL_append (sep : Char) (a b : List Char) (ha : sep ∉ a) :
    splitOnCharL sep (a ++ sep :: b) = a :: splitOnCharL sep b := by
  induction a with
  | nil =>
    simp only [List.nil_append, splitOnCharL]
    rcases h : splitOnCharL sep b with _ | ⟨g, gs⟩
    · exact absurd h (splitOnCharL_ne_nil sep b)
    · simp
  | cons c a' ih =>
    have hc : ¬ c = sep := fun hh => ha (hh ▸ List.mem_cons_self c a')
    have ha' : sep ∉ a' := fun hh => ha (List.mem_cons_of_mem c hh)
    rw [List.cons_append]
    simp only [splitOnCharL]
    rw [ih ha']
    simp [hc]

/-- `joinSpan` peels a line off the front of a two-or-more-line run. -/
theorem joinSpan_cons_cons (c : Char) (g : List Char) (gs : List (List Char)) :
    joinSpan ((c :: g) :: gs) = c :: joinSpan (g :: gs) := by
  cases gs <;> rfl

/-- `joinSpan` of a cons with a nonempty tail inserts one newline. -/
theorem joinSpan_cons_of_ne (l : List Char) (seg : List (List Char))
    (h : seg ≠ []) : joinSpan (l :: seg) = l ++ '\n' :: joinSpan seg := by
  cases seg with
  | nil => exact absurd rfl h
  | cons g gs => rfl

/-- Splitting on newlines and re-joining with newlines is the identity. -/
theorem joinSpan_splitOnCharL (cs : List Char) :
    joinSpan (splitOnCharL '\n' cs) = cs := by
  induction cs with
  | nil => rfl
  | cons c rest ih =>
    rcases h : splitOnCharL '\n' rest with _ | ⟨g, gs⟩
    · exact absurd h (splitOnCharL_ne_nil _ _)
    · rw [h] at ih
      by_cases hc : c = '\n'
      · subst hc
        have hsplit : splitOnCharL '\n' ('\n' :: rest) = [] :: g :: gs := by
          simp [splitOnCharL, h]
        rw [hsplit, joinSpan_cons_of_ne [] (g :: gs) (by simp),
          List.nil_append, ih]
      · have hsplit : splitOnCharL '\n' (c :: rest) = (c :: g) :: gs := by
          simp [splitOnCharL, h, hc]
        rw [hsplit, joinSpan_cons_cons, ih]

/-- Splitting distributes over an occurrence of the separator. -/
theorem splitOnCharL_sep_append (sep : Char) (x y : List Char) :
    splitOnCharL sep (x ++ sep :: y) =
      splitOnCharL sep x ++ splitOnCharL sep y := by
  induction x with
  | nil =>
    rcases h : splitOnCharL sep y with _ | ⟨g, gs⟩
    · exact absurd h (splitOnCharL_ne_nil _ _)
    · simp [splitOnCharL, h]
  | cons c x' ih =>
    rcases h : splitOnCharL sep x' with _ | ⟨g, gs⟩
    · exact absurd h (splitOnCharL_ne_nil _ _)
    · rw [List.cons_append]
      simp only [splitOnCharL, ih, h]
      by_cases hc : c = sep <;> simp [hc]

/-- `joinSpan` over a concatenation of two nonempty runs of lines. -/
theorem joinSpan_append (A B : List (List Char)) (hA : A ≠ []) (hB : B ≠ []) :
    joinSpan (A ++ B) = joinSpan A ++ '\n' :: joinSpan B := by
  induction A with
  | nil => exact absurd rfl hA
  | cons a A' ih =>
    cases A' with
    | nil =>
      rw [List.cons_append, List.nil_append, joinSpan_cons_of_ne a B hB]
      rfl
    | cons a2 A'' =>
      rw [List.cons_append, joinSpan_cons_of_ne a ((a2 :: A'') ++ B) (by simp),
        ih (by simp), joinSpan_cons_of_ne a (a2 :: A'') (by simp)]
      simp

/-- Membership in `headSpans`: the stretches starting at the first line. -/
theorem mem_headSpans_iff (M : List (List Char)) (x : List Char) :
    x ∈ headSpans M ↔
      ∃ seg post, M = seg ++ post ∧ seg ≠ [] ∧ x = joinSpan seg := by
  induction M generalizing x with
  | nil =>
    simp only [headSpans, List.not_mem_nil, false_iff]
    rintro ⟨seg, post, hM, hne, _⟩
    cases seg with
    | nil => exact hne rfl
    | cons s1 seg2 => simp at hM
  | cons l rest ih =>
    simp only [headSpans, List.mem_cons, List.mem_map]
    constructor
    · rintro (h | ⟨j, hj, rfl⟩)
      · exact ⟨[l], rest, rfl, by simp, h⟩
      · rcases (ih j).1 hj with ⟨seg, post, hM, hne, rfl⟩
        exact ⟨l :: seg, post, by rw [hM]; rfl, by simp,
          (joinSpan_cons_of_ne l seg hne).symm⟩
    · rintro ⟨seg, post, hM, hne, rfl⟩
      cases seg with
      | nil => exact absurd rfl hne
      | cons s1 seg2 =>
        rw [List.cons_append] at hM
        injection hM with h1 h2
        subst h1
        cases seg2 with
        | nil => exact Or.inl rfl
        | cons s2 seg3 =>
          exact Or.inr ⟨joinSpan (s2 :: seg3),
            (ih _).2 ⟨s2 :: seg3, post, h2, by simp, rfl⟩, rfl⟩

/-- Membership in `allSpans`: every stretch running from some line start
to some line end. -/
theorem mem_allSpans_iff (L : List (List Char)) (x : List Char) :
    x ∈ allSpans L ↔
      ∃ pre seg post, L = pre ++ seg ++ post ∧ seg ≠ [] ∧ x = joinSpan seg := by
  induction L generalizing x with
  | nil =>
    simp only [allSpans, List.not_mem_nil, false_iff]
    rintro ⟨pre, seg, post, hL, hne, _⟩
    cases pre with
    | nil =>
      cases seg with
      | nil => exact hne rfl
      | cons s1 seg2 => simp at hL
    | cons p1 pre' => simp at hL
  | cons l rest ih =>
    simp only [allSpans, List.mem_append]
    constructor
    · rintro (h | h)
      · rcases (mem_headSpans_iff _ _).1 h with ⟨seg, post, hM, hne, rfl⟩
        exact ⟨[], seg, post, by simpa using hM, hne, rfl⟩
      · rcases (ih x).1 h with ⟨pre, seg, post, hL, hne, rfl⟩
        exact ⟨l :: pre, seg, post, by rw [hL]; rfl, hne, rfl⟩
    · rintro ⟨pre, seg, post, hL, hne, rfl⟩
      cases pre with
      | nil =>
        exact Or.inl ((mem_headSpans_iff _ _).2
          ⟨seg, post, by simpa using hL, hne, rfl⟩)
      | cons p1 pre' =>
        rw [List.cons_append] at hL
        injection hL with h1 h2
        exact Or.inr ((ih _).2 ⟨pre', seg, post, h2, hne, rfl⟩)

/-- The executable span scan of `csvLineTest` computes exactly the
decomposition form of a `CHART_PATTERNS.CSV` match. -/
theorem csvLineTest_iff_spanMatch (s : String) :
    csvLineTest s = true ↔ CsvSpanMatch s.toList := by
  rw [csvLineTest, List.any_eq_true]
  constructor
  · rintro ⟨x, hx, hok⟩
    rcases (mem_allSpans_iff _ _).1 hx with ⟨pre, seg, post, hL, hne, rfl⟩
    have hcs : s.toList = joinSpan (pre ++ seg ++ post) := by
      rw [← hL, joinSpan_splitOnCharL]
    simp only [csvFieldsOk, Bool.and_eq_true, decide_eq_true_eq,
      List.all_eq_true] at hok
    obtain ⟨hlen, hall⟩ := hok
    have hfe : ∀ f ∈ splitOnCharL ',' (joinSpan seg), f ≠ [] := by
      intro f hf hfnil
      have := hall f hf
      rw [hfnil] at this
      exact absurd this (by decide)
    by_cases hp : pre = [] <;> by_cases hq : post = []
    · subst hp; subst hq
      refine ⟨[], joinSpan seg, [], ?_, Or.inl rfl, Or.inl rfl, hlen, hfe⟩
      simpa using hcs
    · subst hp
      refine ⟨[], joinSpan seg, '\n' :: joinSpan post, ?_, Or.inl rfl,
        Or.inr ⟨joinSpan post, rfl⟩, hlen, hfe⟩
      rw [hcs, List.nil_append, List.nil_append, joinSpan_append seg post hne hq]
    · subst hq
      refine ⟨joinSpan pre ++ ['\n'], joinSpan seg, [], ?_,
        Or.inr ⟨joinSpan pre, rfl⟩, Or.inl rfl, hlen, hfe⟩
      rw [hcs, List.append_nil, List.append_nil, joinSpan_append pre seg hp hne]
      simp
    · refine ⟨joinSpan pre ++ ['\n'], joinSpan seg, '\n' :: joinSpan post, ?_,
        Or.inr ⟨joinSpan pre, rfl⟩, Or.inr ⟨joinSpan post, rfl⟩, hlen, hfe⟩
      rw [hcs, List.append_assoc,
        joinSpan_append pre (seg ++ post) hp
          (fun h => hne (List.append_eq_nil.1 h).1),
        joinSpan_append seg post hne hq]
      simp
  · rintro ⟨u, v, w, hcs, hu, hw, hlen, hne⟩
    refine ⟨joinSpan (splitOnCharL '\n' v), ?_, ?_⟩
    · apply (mem_allSpans_iff _ _).2
      rcases hu with rfl | ⟨u0, rfl⟩ <;> rcases hw with rfl | ⟨w0, rfl⟩
      · refine ⟨[], splitOnCharL '\n' v, [], ?_, splitOnCharL_ne_nil _ _, rfl⟩
        rw [hcs]; simp
      · refine ⟨[], splitOnCharL '\n' v, splitOnCharL '\n' w0, ?_,
          splitOnCharL_ne_nil _ _, rfl⟩
        rw [hcs, List.nil_append, splitOnCharL_sep_append, List.nil_append]
      · refine ⟨splitOnCharL '\n' u0, splitOnCharL '\n' v, [], ?_,
          splitOnCharL_ne_nil _ _, rfl⟩
        rw [hcs, List.append_nil, List.append_assoc, List.singleton_append,
          splitOnCharL_sep_append, List.append_nil]
      · refine ⟨splitOnCharL '\n' u0, splitOnCharL '\n' v, splitOnCharL '\n' w0,
          ?_, splitOnCharL_ne_nil _ _, rfl⟩
        rw [hcs, List.append_assoc, List.append_assoc, List.singleton_append,
          splitOnCharL_sep_append, splitOnCharL_sep_append, List.append_assoc]
    · rw [joinSpan_splitOnCharL]
      simp only [csvFieldsOk, Bool.and_eq_true, decide_eq_true_eq,
        List.all_eq_true]
      refine ⟨hlen, fun f hf => ?_⟩
      have := hne f hf
      cases f with
      | nil => exact absurd rfl this
      | cons c f' => rfl

/-- A list ending in `a` has `getLast? = some a`. -/
theorem getLast?_append_single (l : List Char) (a : Char) :
    (l ++ [a]).getLast? = some a := by
  induction l with
  | nil => rfl
  | cons c l' ih =>
    rw [List.cons_append]
    rcases h : l' ++ [a] with _ | ⟨d, t⟩
    · cases l' <;> simp at h
    · rw [h] at ih
      rw [List.getLast?_cons_cons, ih]

/-- A list with `getLast? = some a` ends in `a`. -/
theorem exists_append_single_of_getLast? (l : List Char) (a : Char)
    (h : l.getLast? = some a) : ∃ l0, l = l0 ++ [a] := by
  induction l with
  | nil => simp [List.getLast?] at h
  | cons c l' ih =>
    cases l' with
    | nil =>
      refine ⟨[], ?_⟩
      have hc : c = a := by simpa [List.getLast?] using h
      rw [hc]; rfl
    | cons c2 l'' =>
      rw [List.getLast?_cons_cons] at h
      rcases ih h with ⟨l0, hl0⟩
      exact ⟨c :: l0, by rw [List.cons_append, ← hl0]⟩

/-- `jsonShapeTest` holds exactly when, ignoring surrounding whitespace,
the text starts with a brace and ends with a brace. -/
theorem jsonShapeTest_iff (s : String) :
    jsonShapeTest s = true ↔
      ∃ mid, trimL s.toList = '{' :: (mid ++ ['}']) := by
  constructor
  · intro h
    rw [jsonShapeTest] at h
    split at h
    · rename_i rest heq
      split at h
      · rename_i c2 hl
        have hc2 : c2 = '}' := by simpa using h
        subst hc2
        rcases exists_append_single_of_getLast? rest _ hl with ⟨mid, hmid⟩
        exact ⟨mid, by rw [heq, hmid]⟩
      · exact absurd h (by simp)
    · exact absurd h (by simp)
  · rintro ⟨mid, hmid⟩
    rw [jsonShapeTest, hmid]
    simp [getLast?_append_single]

/-- `tableLineTest` holds exactly when some line, trimmed, starts and ends
with a pipe and contains at least four pipes. -/
theorem tableLineTest_iff (s : String) :
    tableLineTest s = true ↔
      ∃ line ∈ splitOnCharL '\n' s.toList,
        startsWithL ['|'] (trimL line) = true ∧
        (trimL line).getLast? = some '|' ∧
        4 ≤ ((trimL line).filter (· = '|')).length := by
  rw [tableLineTest, List.any_eq_true]
  constructor
  · rintro ⟨line, hline, hok⟩
    simp only [Bool.and_eq_true, decide_eq_true_eq] at hok
    obtain ⟨⟨h1, h2⟩, h3⟩ := hok
    refine ⟨line, hline, h1, ?_, h3⟩
    split at h2
    · rename_i c hl
      have hc : c = '|' := by simpa using h2
      rw [hl, hc]
    · exact absurd h2 (by simp)
  · rintro ⟨line, hline, h1, h2, h3⟩
    refine ⟨line, hline, ?_⟩
    simp only [Bool.and_eq_true, decide_eq_true_eq]
    exact ⟨⟨h1, by rw [h2]; simp⟩, h3⟩

/-- C3 (amended): `isChartData` accepts a block if and only if (i) some
stretch of the text running from a line start to a line end splits on
commas into at least two nonempty fields — in JavaScript `[^,]` matches
newlines, so the stretch may span lines and no per-line field-count
consistency is checked; or (ii) ignoring surrounding whitespace the block
starts with `{` and ends with `}` (no JSON parse is attempted); or (iii)
some line, trimmed, starts and ends with `|` and contains at least four
`|`.  In particular ordinary prose containing a comma, such as
`"Hello, world"`, is classified as chart data, and any such non-directive
paragraph is diverted from the bullet path into the chart processor. -/
theorem isChartData_characterization (s : String) :
    (isChartData s = true ↔
      (CsvSpanMatch s.toList ∨
        (∃ mid, trimL s.toList = '{' :: (mid ++ ['}'])) ∨
        (∃ line ∈ splitOnCharL '\n' s.toList,
          startsWithL ['|'] (trimL line) = true ∧
          (trimL line).getLast? = some '|' ∧
          4 ≤ ((trimL line).filter (· = '|')).length))) ∧
    (isDirective s = false → isChartData s = true →
      ∀ (opts : ConverterOptions) (jp : String → Option Json) (ctx : Ctx),
        paragraphHandler opts jp s ctx = processChartData jp s ctx) := by
  constructor
  · rw [← csvLineTest_iff_spanMatch, ← jsonShapeTest_iff, ← tableLineTest_iff,
      isChartData]
    simp only [Bool.or_eq_true]
    tauto
  · intro hdir hcd opts jp ctx
    simp [paragraphHandler, hdir, hcd]

/-- Witness for C3 at `"Hello, world"`: accepted and diverted. -/
theorem isChartData_characterization_witness :
    paragraphHandler defaultOptions jpNone "Hello, world" (initCtx mdEmpty) =
      processChartData jpNone "Hello, world" (initCtx mdEmpty) :=
  (isChartData_characterization "Hello, world").2 (by decide) (by decide)
    defaultOptions jpNone (initCtx mdEmpty)

/-- C9 (amended): the paragraph handler and the list-item handler both
append the cleaned text to `currentBullets`/`currentLevel`, but only the
list-item handler lazily creates a `{layout: 'text', title: "Content"}`
skeleton; the paragraph handler appends only when a slide is in flight or
bullets are pending, and a non-directive, non-chart paragraph arriving
with neither is silently dropped (the context is left untouched, so it
never reaches the output). -/
theorem paragraph_listitem_append_behavior :
    (∀ (opts : ConverterOptions) (jp : String → Option Json) (clock : String)
        (ctx : Ctx) (t : String),
        isDirective t = false → isChartData t = false →
        ctx.currentSlide = none → ctx.currentBullets = [] →
        step opts jp clock ctx (MdEvent.paragraph t) = ctx) ∧
    (∀ (opts : ConverterOptions) (jp : String → Option Json) (clock : String)
        (ctx : Ctx) (t : String),
        isDirective t = false → isChartData t = false → cleanText t ≠ "" →
        ctx.currentSlide.isSome = true →
        ctx.currentBullets.length + 1 < opts.slidesPerPage →
        (step opts jp clock ctx (MdEvent.paragraph t)).currentBullets =
            ctx.currentBullets ++ [cleanText t] ∧
        (step opts jp clock ctx (MdEvent.paragraph t)).currentLevel =
            ctx.currentLevel ++ [0] ∧
        (step opts jp clock ctx (MdEvent.paragraph t)).slides = ctx.slides) ∧
    (∀ (opts : ConverterOptions) (clock : String) (jp : String → Option Json)
        (ctx : Ctx) (t : String),
        ctx.currentSlide = none →
        ctx.currentBullets.length + 1 < opts.slidesPerPage →
        (step opts jp clock ctx (MdEvent.listItem t)).currentBullets =
            ctx.currentBullets ++ [cleanText t] ∧
        (step opts jp clock ctx (MdEvent.listItem t)).currentLevel =
            ctx.currentLevel ++ [detectIndentLevel t] ∧
        (step opts jp clock ctx (MdEvent.listItem t)).currentSlide =
            some contentSkeleton) := by
  refine ⟨?_, ?_, ?_⟩
  · intro opts jp clock ctx t hdir hcd hcs hcb
    simp [step, paragraphHandler, hdir, hcd, hcs, hcb]
  · intro opts jp clock ctx t hdir hcd hct hcs hlen
    have hsplit : ¬ (opts.autoSplit = true ∧
        opts.slidesPerPage ≤ ctx.currentBullets.length + 1) := by
      rintro ⟨-, hle⟩
      omega
    simp [step, paragraphHandler, hdir, hcd, hct, hcs, hsplit]
  · intro opts clock jp ctx t hcs hlen
    have hsplit : ¬ (opts.autoSplit = true ∧
        opts.slidesPerPage ≤ ctx.currentBullets.length + 1) := by
      rintro ⟨-, hle⟩
      omega
    simp [step, listitemHandler, hcs, hsplit]

/-- Witness for C9: the list-item branch at a concrete empty context. -/
theorem paragraph_listitem_append_behavior_witness :
    (step defaultOptions jpNone "" (initCtx mdEmpty) (MdEvent.listItem "w")).currentBullets =
        (initCtx mdEmpty).currentBullets ++ [cleanText "w"] ∧
    (step defaultOptions jpNone "" (initCtx mdEmpty) (MdEvent.listItem "w")).currentLevel =
        (initCtx mdEmpty).currentLevel ++ [detectIndentLevel "w"] ∧
    (step defaultOptions jpNone "" (initCtx mdEmpty) (MdEvent.listItem "w")).currentSlide =
        some contentSkeleton :=
  paragraph_listitem_append_behavior.2.2 defaultOptions "" jpNone (initCtx mdEmpty) "w"
    rfl (by decide)

/-- Working on a later column ignores the first dataset. -/
theorem csvRowGo_cons : ∀ (vs : List String) (d : Dataset) (ds : List Dataset) (k : Nat),
    csvRowGo (d :: ds) (k + 1) vs = Option.map (fun r => d :: r) (csvRowGo ds k vs) := by
  intro vs
  induction vs with
  | nil => intro d ds k; rfl
  | cons v vs ih =>
    intro d ds k
    by_cases hp : parseFloatJS v = JSNum.nan
    · rw [csvRowGo, if_pos hp, csvRowGo, if_pos hp]
      exact ih d ds (k + 1)
    · rw [csvRowGo, if_neg hp, csvRowGo, if_neg hp]
      simp only [pushAt]
      rcases hr : pushAt ds k (parseFloatJS v) with _ | ds2
      · rfl
      · exact ih d ds2 (k + 1)

/-- A row of values never touches an empty dataset list (or fails). -/
theorem csvRowGo_nil_ds : ∀ (vs : List String) (k : Nat) (ds2 : List Dataset),
    csvRowGo [] k vs = some ds2 → ds2 = [] := by
  intro vs
  induction vs with
  | nil => intro k ds2 h; simpa [csvRowGo] using h.symm
  | cons v vs ih =>
    intro k ds2 h
    by_cases hp : parseFloatJS v = JSNum.nan
    · rw [csvRowGo, if_pos hp] at h
      exact ih (k + 1) ds2 h
    · rw [csvRowGo, if_neg hp] at h
      cases h

/-- One CSV row grows every dataset by at most one value (each column is
visited once), and preserves the number of datasets. -/
theorem csvRowGo_bound : ∀ (vs : List String) (ds ds2 : List Dataset),
    csvRowGo ds 0 vs = some ds2 →
    List.Forall₂ (fun d d2 => d2.data.length ≤ d.data.length + 1) ds ds2 := by
  intro vs
  induction vs with
  | nil =>
    intro ds ds2 h
    simp only [csvRowGo, Option.some_inj] at h
    subst h
    rw [List.forall₂_same]
    intro d _
    omega
  | cons v vs ih =>
    intro ds ds2 h
    by_cases hp : parseFloatJS v = JSNum.nan
    · rw [csvRowGo, if_pos hp] at h
      rcases ds with _ | ⟨d, rest⟩
      · rw [csvRowGo_nil_ds (v :: vs) 0 ds2 (by rw [csvRowGo, if_pos hp]; exact h)]
        exact List.Forall₂.nil
      · rw [csvRowGo_cons vs d rest 0] at h
        rcases hr : csvRowGo rest 0 vs with _ | rest2
        · rw [hr] at h; cases h
        · rw [hr] at h
          simp only [Option.map] at h
          injection h with h
          subst h
          exact List.Forall₂.cons (by omega) (ih rest rest2 hr)
    · rw [csvRowGo, if_neg hp] at h
      rcases ds with _ | ⟨d, rest⟩
      · simp [pushAt] at h
      · simp only [pushAt] at h
        rw [csvRowGo_cons vs _ rest 0] at h
        rcases hr : csvRowGo rest 0 vs with _ | rest2
        · rw [hr] at h; cases h
        · rw [hr] at h
          simp only [Option.map] at h
          injection h with h
          subst h
          refine List.Forall₂.cons ?_ (ih rest rest2 hr)
          simp

/-- Composition of the per-row growth bounds. -/
theorem forall2_growth_trans : ∀ (a b c : List Dataset) (x y : Nat),
    List.Forall₂ (fun d d2 => d2.data.length ≤ d.data.length + x) a b →
    List.Forall₂ (fun d d2 => d2.data.length ≤ d.data.length + y) b c →
    List.Forall₂ (fun d d2 => d2.data.length ≤ d.data.length + (x + y)) a c := by
  intro a b c x y hab
  induction hab generalizing c with
  | nil =>
    intro hbc
    cases hbc
    exact List.Forall₂.nil
  | cons hd htl ih =>
    intro hbc
    cases hbc with
    | cons hd2 htl2 => exact List.Forall₂.cons (by omega) (ih _ htl2)

/-- The outer CSV loop: one label per data row, and every dataset gains at
most one value per data row. -/
theorem csvLinesGo_spec : ∀ (rows : List (List String)) (labels : List String)
    (ds : List Dataset) (labels2 : List String) (ds2 : List Dataset),
    csvLinesGo labels ds rows = some (labels2, ds2) →
    labels2.length = labels.length + rows.length ∧
    List.Forall₂ (fun d d2 => d2.data.length ≤ d.data.length + rows.length) ds ds2 := by
  intro rows
  induction rows with
  | nil =>
    intro labels ds labels2 ds2 h
    simp only [csvLinesGo, Option.some_inj, Prod.mk.injEq] at h
    obtain ⟨h1, h2⟩ := h
    subst h1; subst h2
    refine ⟨by simp, ?_⟩
    rw [List.forall₂_same]
    intro d _
    omega
  | cons vals rest ih =>
    intro labels ds labels2 ds2 h
    rw [csvLinesGo] at h
    rcases hr : csvRowGo ds 0 (vals.drop 1) with _ | dsMid
    · rw [hr] at h; cases h
    · rw [hr] at h
      obtain ⟨hlab, hfa⟩ := ih (labels ++ [vals.headD ""]) dsMid labels2 ds2 h
      refine ⟨?_, ?_⟩
      · have hone : (labels ++ [vals.headD ""]).length = labels.length + 1 := by simp
        rw [hlab, hone]
        simp only [List.length_cons]
        omega
      · have h1 := csvRowGo_bound (vals.drop 1) ds dsMid hr
        have h2 := forall2_growth_trans ds dsMid ds2 1 rest.length h1 hfa
        simpa [List.length_cons, Nat.add_comm] using h2

/-- Every element of the right list of a `Forall₂` is related to some
element of the left list. -/
theorem forall2_mem_right {R : Dataset → Dataset → Prop} : ∀ {a b : List Dataset},
    List.Forall₂ R a b → ∀ d ∈ b, ∃ d0 ∈ a, R d0 d := by
  intro a b h
  induction h with
  | nil => intro d hd; cases hd
  | cons hd htl ih =>
    intro d hdm
    rcases List.mem_cons.1 hdm with rfl | hmem
    · exact ⟨_, List.mem_cons_self _ _, hd⟩
    · rcases ih d hmem with ⟨d0, hd0, hr⟩
      exact ⟨d0, List.mem_cons_of_mem _ hd0, hr⟩

/-- C6 (amended): chart slides built from Markdown tables always satisfy
the chart-data invariant — every dataset is exactly as long as the labels
list (non-numeric cells are coerced to 0, preserving length) — while for
chart data built from CSV text each dataset is at most as long as the
labels list: non-numeric cells are skipped, so a dataset can be strictly
shorter. -/
theorem chart_slide_dataset_lengths :
    (∀ (headers : List String) (rows : List (List String)) (ctx : Ctx) (cd : ChartData),
        chartPayloadOf (createChartFromTable headers rows ctx) =
            some (ChartPayload.parsed cd) →
        ∀ d ∈ cd.datasets, d.data.length = cd.labels.length) ∧
    (∀ (csv : String) (cd : ChartData),
        parseCSVToChartData csv = some cd →
        ∀ d ∈ cd.datasets, d.data.length ≤ cd.labels.length) := by
  constructor
  · intro headers rows ctx cd h d hd
    have hcd : cd = { labels := rows.map fun r => r.headD "",
                      datasets := (headers.enum.drop 1).map fun p =>
                        ({ label := p.2,
                           data := rows.map fun r => parseFloatOr0 (r.getD p.1 "") } : Dataset) } := by
      have := h.symm
      simpa [createChartFromTable, chartPayloadOf] using this
    subst hcd
    simp only at hd
    rcases List.mem_map.1 hd with ⟨p, _, rfl⟩
    simp
  · intro csv cd h d hd
    simp only [parseCSVToChartData] at h
    split at h
    case h_1 labels2 ds2 heq =>
      have hcd : cd = { labels := labels2, datasets := ds2 } := by
        simpa using h.symm
      subst hcd
      obtain ⟨hlab, hfa⟩ := csvLinesGo_spec _ _ _ _ _ heq
      rcases forall2_mem_right hfa d hd with ⟨d0, hd0, hr⟩
      rcases List.mem_map.1 hd0 with ⟨hh, _, rfl⟩
      rw [hlab]
      simpa using hr
    case h_2 => cases h

/-- Witness for C6 on concrete data: a fully numeric 2×2 table gives a
dataset of length 2 = labels length; the CSV `"M,S\nJan,100"` gives a
dataset of length 1 ≤ 1. -/
theorem chart_slide_dataset_lengths_witness :
    ({ label := "S", data := [JSNum.val 100 0] } : Dataset).data.length ≤
      ({ labels := ["Jan"],
         datasets := [{ label := "S", data := [JSNum.val 100 0] }] } : ChartData).labels.length :=
  chart_slide_dataset_lengths.2 "M,S\nJan,100"
    { labels := ["Jan"], datasets := [{ label := "S", data := [JSNum.val 100 0] }] }
    (by decide) _ (by decide)

/-- Number of chunks produced by the auto-split grouping. -/
theorem chunk6Go_length : ∀ (l acc : List (String × Nat)), acc.length < 6 →
    (chunk6Go acc l).length = (acc.length + l.length + 5) / 6 := by
  intro l
  induction l with
  | nil =>
    intro acc hacc
    rcases acc with _ | ⟨q, qs⟩
    · simp [chunk6Go]
    · rw [chunk6Go]
      simp only [List.isEmpty_cons, List.length_cons, List.length_nil]
      simp only [List.length_cons] at hacc
      have : (qs.length + 1 + 0 + 5) / 6 = 1 := by omega
      simp [this]
  | cons p rest ih =>
    intro acc hacc
    rw [chunk6Go]
    by_cases hfull : 6 ≤ (acc ++ [p]).length
    · rw [if_pos hfull, List.length_cons, ih [] (by simp)]
      simp only [List.length_append, List.length_cons, List.length_nil] at hfull ⊢
      omega
    · rw [if_neg hfull, ih (acc ++ [p]) (by simp only [List.length_append] at hfull ⊢; omega)]
      simp only [List.length_append, List.length_cons, List.length_nil]
      omega

/-- Every chunk has at most six entries. -/
theorem chunk6Go_le6 : ∀ (l acc : List (String × Nat)), acc.length < 6 →
    ∀ c ∈ chunk6Go acc l, c.length ≤ 6 := by
  intro l
  induction l with
  | nil =>
    intro acc hacc c hc
    rw [chunk6Go] at hc
    rcases acc with _ | ⟨q, qs⟩
    · simp at hc
    · simp at hc
      subst hc
      simp only [List.length_cons] at hacc ⊢
      omega
  | cons p rest ih =>
    intro acc hacc c hc
    rw [chunk6Go] at hc
    by_cases hfull : 6 ≤ (acc ++ [p]).length
    · rw [if_pos hfull] at hc
      rcases List.mem_cons.1 hc with rfl | hmem
      · simp only [List.length_append, List.length_cons, List.length_nil] at hfull ⊢
        omega
      · exact ih [] (by simp) c hmem
    · rw [if_neg hfull] at hc
      exact ih (acc ++ [p]) (by simp only [List.length_append] at hfull ⊢; omega) c hc

/-- The chunks concatenate back to the accumulated prefix plus the input. -/
theorem chunk6Go_flatten : ∀ (l acc : List (String × Nat)),
    (chunk6Go acc l).flatten = acc ++ l := by
  intro l
  induction l with
  | nil =>
    intro acc
    rcases acc with _ | ⟨q, qs⟩
    · simp [chunk6Go]
    · simp [chunk6Go]
  | cons p rest ih =>
    intro acc
    rw [chunk6Go]
    by_cases hfull : 6 ≤ (acc ++ [p]).length
    · rw [if_pos hfull]
      simp [ih []]
    · rw [if_neg hfull]
      simp [ih (acc ++ [p])]

/-- Unfolding one event of the stream. -/
theorem runEvents_cons (opts : ConverterOptions) (jp : String → Option Json)
    (clock : String) (e : MdEvent) (es : List MdEvent) (ctx : Ctx) :
    runEvents opts jp clock (e :: es) ctx =
      runEvents opts jp clock es (step opts jp clock ctx e) := rfl

/-- Main auto-split run lemma: streaming list items under the default
options (threshold 6, auto-split on) from a context whose pending bullets
are the pairs `ps` (fewer than six, under a `Content` skeleton when
nonempty) produces exactly the 6-chunks of `ps` followed by the cleaned
items, each chunk one `Content` text slide. -/
theorem listRun (jp : String → Option Json) (clock : String) :
    ∀ (items : List String) (ps : List (String × Nat)) (ctx : Ctx),
    ps.length < 6 →
    ctx.currentBullets = ps.map Prod.fst →
    ctx.currentLevel = ps.map Prod.snd →
    ctx.currentSlide = (if ps.isEmpty then none else some contentSkeleton) →
    flushCurrentSlide (runEvents defaultOptions jp clock (items.map MdEvent.listItem) ctx) =
      { ctx with
          slides := ctx.slides ++
            (chunk6Go ps (items.map fun s => (cleanText s, detectIndentLevel s))).map
              mkContentSlide,
          currentBullets := [], currentLevel := [], currentSlide := none } := by
  intro items
  induction items with
  | nil =>
    intro ps ctx hlt hb hl hcs
    obtain ⟨slides, cs, cb, cl, a1, a2, a3, a4, md, sd, sc⟩ := ctx
    simp only at hb hl hcs
    subst hb; subst hl; subst hcs
    rcases ps with _ | ⟨q, qs⟩
    · simp [runEvents, flushCurrentSlide, chunk6Go]
    · simp [runEvents, flushCurrentSlide, chunk6Go, mkContentSlide, contentSkeleton, jsOrStr]
  | cons x xs ih =>
    intro ps ctx hlt hb hl hcs
    obtain ⟨slides, cs, cb, cl, a1, a2, a3, a4, md, sd, sc⟩ := ctx
    simp only at hb hl hcs
    subst hb; subst hl; subst hcs
    rw [List.map_cons, runEvents_cons]
    rcases ps with _ | ⟨q, qs⟩
    · have hstep : step defaultOptions jp clock
          ⟨slides, if List.isEmpty ([] : List (String × Nat)) = true then none
             else some contentSkeleton,
           List.map Prod.fst ([] : List (String × Nat)),
           List.map Prod.snd ([] : List (String × Nat)), a1, a2, a3, a4, md, sd, sc⟩
          (MdEvent.listItem x) =
          ⟨slides, some contentSkeleton, [cleanText x], [detectIndentLevel x],
           a1, a2, a3, a4, md, sd, sc⟩ := by
        simp [step, listitemHandler, defaultOptions]
      rw [hstep, ih [(cleanText x, detectIndentLevel x)]
        ⟨slides, some contentSkeleton, [cleanText x], [detectIndentLevel x],
         a1, a2, a3, a4, md, sd, sc⟩
        (by simp) (by simp) (by simp) (by simp)]
      simp only [List.map_cons, chunk6Go]
      simp
    · by_cases hfull : 6 ≤ qs.length + 2
      · have hstep : step defaultOptions jp clock
            ⟨slides, if List.isEmpty (q :: qs) = true then none else some contentSkeleton,
             List.map Prod.fst (q :: qs), List.map Prod.snd (q :: qs), a1, a2, a3, a4, md, sd, sc⟩
            (MdEvent.listItem x) =
            ⟨slides ++ [mkContentSlide ((q :: qs) ++ [(cleanText x, detectIndentLevel x)])],
             none, [], [], a1, a2, a3, a4, md, sd, sc⟩ := by
          simp only [step, listitemHandler, List.isEmpty_cons, if_neg]
          simp only [Bool.false_eq_true, if_false]
          have hcond : defaultOptions.autoSplit = true ∧ defaultOptions.slidesPerPage ≤
              (List.map Prod.fst (q :: qs) ++ [cleanText x]).length := by
            refine ⟨rfl, ?_⟩
            simp only [defaultOptions, List.length_append, List.length_map,
              List.length_cons, List.length_nil]
            omega
          simp only [if_pos hcond]
          simp [flushCurrentSlide, mkContentSlide, contentSkeleton, jsOrStr]
        rw [hstep, ih []
          ⟨slides ++ [mkContentSlide ((q :: qs) ++ [(cleanText x, detectIndentLevel x)])],
           none, [], [], a1, a2, a3, a4, md, sd, sc⟩
          (by simp) rfl rfl (by simp)]
        simp only [List.map_cons, chunk6Go]
        rw [if_pos (by simp only [List.length_append, List.length_cons, List.length_nil]; omega)]
        simp
      · have hstep : step defaultOptions jp clock
            ⟨slides, if List.isEmpty (q :: qs) = true then none else some contentSkeleton,
             List.map Prod.fst (q :: qs), List.map Prod.snd (q :: qs), a1, a2, a3, a4, md, sd, sc⟩
            (MdEvent.listItem x) =
            ⟨slides, some contentSkeleton,
             ((q :: qs) ++ [(cleanText x, detectIndentLevel x)]).map Prod.fst,
             ((q :: qs) ++ [(cleanText x, detectIndentLevel x)]).map Prod.snd,
             a1, a2, a3, a4, md, sd, sc⟩ := by
          simp only [step, listitemHandler, List.isEmpty_cons, if_neg]
          simp only [Bool.false_eq_true, if_false]
          have hcond : ¬ (defaultOptions.autoSplit = true ∧ defaultOptions.slidesPerPage ≤
              (List.map Prod.fst (q :: qs) ++ [cleanText x]).length) := by
            rintro ⟨-, hle⟩
            simp only [defaultOptions, List.length_append, List.length_map,
              List.length_cons, List.length_nil] at hle
            omega
          simp only [if_neg hcond]
          simp
        rw [hstep, ih ((q :: qs) ++ [(cleanText x, detectIndentLevel x)])
          ⟨slides, some contentSkeleton,
           ((q :: qs) ++ [(cleanText x, detectIndentLevel x)]).map Prod.fst,
           ((q :: qs) ++ [(cleanText x, detectIndentLevel x)]).map Prod.snd,
           a1, a2, a3, a4, md, sd, sc⟩
          (by simp only [List.length_append, List.length_cons, List.length_nil]; omega)
          rfl rfl (by simp)]
        simp only [List.map_cons, chunk6Go]
        rw [if_neg (by simp only [List.length_append, List.length_cons, List.length_nil]; omega)]

/-- C5: for a document of N consecutive list items (N ≥ 6, auto-split on,
default threshold 6, no intervening structural element), the output is
exactly ceil(N/6) text slides, each with at most 6 bullets, titled
"Content", and the bullets concatenated across slides in order are the
original items (which the handlers store cleaned; the hypothesis says the
items are fixed by cleaning, as plain text is). -/
theorem autosplit_six (jp : String → Option Json) (clock : String) (md : Metadata)
    (items : List String) (h6 : 6 ≤ items.length)
    (hclean : ∀ s ∈ items, cleanText s = s) :
    (convert defaultOptions jp clock md (items.map MdEvent.listItem)).slides.length =
        (items.length + 5) / 6 ∧
    (∀ s ∈ (convert defaultOptions jp clock md (items.map MdEvent.listItem)).slides,
        ∃ bs lv, s.core = SlideCore.textS (some "Content") bs lv ∧ bs.length ≤ 6) ∧
    ((convert defaultOptions jp clock md (items.map MdEvent.listItem)).slides.map
        slideBullets).flatten = items := by
  have hrun := listRun jp clock items [] (initCtx md) (by simp) rfl rfl (by simp [initCtx])
  have hslides : (convert defaultOptions jp clock md (items.map MdEvent.listItem)).slides =
      (chunk6Go [] (items.map fun s => (cleanText s, detectIndentLevel s))).map
        mkContentSlide := by
    simp only [convert, show defaultOptions.includeTableOfContents = false from rfl,
      show defaultOptions.slideNumbers = false from rfl, Bool.false_eq_true, if_false]
    rw [hrun]
    simp [initCtx]
  refine ⟨?_, ?_, ?_⟩
  · rw [hslides, List.length_map, chunk6Go_length _ [] (by simp)]
    simp
  · intro s hs
    rw [hslides] at hs
    rcases List.mem_map.1 hs with ⟨c, hc, rfl⟩
    refine ⟨c.map Prod.fst, some (c.map Prod.snd), rfl, ?_⟩
    simpa using chunk6Go_le6 _ [] (by simp) c hc
  · rw [hslides]
    have hmapped : ((chunk6Go [] (items.map fun s => (cleanText s, detectIndentLevel s))).map
        mkContentSlide).map slideBullets =
        (chunk6Go [] (items.map fun s => (cleanText s, detectIndentLevel s))).map
          (fun c => c.map Prod.fst) := by
      rw [List.map_map]
      rfl
    rw [hmapped, ← List.map_flatten, chunk6Go_flatten]
    simp only [List.nil_append, List.map_map]
    have hcongr : ∀ s ∈ items,
        (Prod.fst ∘ fun s => (cleanText s, detectIndentLevel s)) s = id s := by
      intro s hs
      simp [hclean s hs]
    rw [List.map_congr_left hcongr, List.map_id]

/-- Witness for C5 at seven concrete items: two slides. -/
theorem autosplit_six_witness :
    (convert defaultOptions jpNone "" mdEmpty
        (["a", "b", "c", "d", "e", "f", "g"].map MdEvent.listItem)).slides.length = 2 :=
  (autosplit_six jpNone "" mdEmpty ["a", "b", "c", "d", "e", "f", "g"]
    (by decide) (by decide)).1

/-- The assembler never touches the frontmatter metadata. -/
theorem flushCurrentSlide_metadata (ctx : Ctx) :
    (flushCurrentSlide ctx).metadata = ctx.metadata := by
  by_cases hb : ctx.currentBullets.length > 0
  · simp [flushCurrentSlide, hb]
  · cases hcs : ctx.currentSlide with
    | none => simp [flushCurrentSlide, hb, hcs]
    | some cs =>
      by_cases hd : cs.layout = CSLayout.text ∧ (cs.bullets = none ∨ cs.bullets = some [])
      · simp [flushCurrentSlide, hb, hcs, hd]
      · simp [flushCurrentSlide, hb, hcs, hd]

/-- The directive processor never touches the metadata. -/
theorem processDirective_metadata (text : String) (ctx : Ctx) :
    (processDirective text ctx).metadata = ctx.metadata := by
  cases h1 : matchComment "slide:" text with
  | some content =>
    by_cases h2 : getParam (parseDirectiveParams content) "type" = some "custom"
    · simp [processDirective, h1, h2, flushCurrentSlide_metadata]
    · simp [processDirective, h1, h2]
  | none =>
    cases h3 : matchComment "notes:" text with
    | some content =>
      cases h4 : ctx.currentSlide with
      | some cs => simp [processDirective, h1, h3, h4]
      | none => simp [processDirective, h1, h3, h4]
    | none =>
      cases h5 : matchComment "chart:" text with
      | some content => simp [processDirective, h1, h3, h5]
      | none => simp [processDirective, h1, h3, h5]

/-- The chart processor never touches the metadata. -/
theorem processChartData_metadata (jp : String → Option Json) (text : String) (ctx : Ctx) :
    (processChartData jp text ctx).metadata = ctx.metadata := by
  by_cases hj : jsonShapeTest text = true
  · cases hp : jp text with
    | none => simp [processChartData, hj, hp, flushCurrentSlide_metadata]
    | some j =>
      by_cases hu : jsonChartUsable j = true
      · simp [processChartData, hj, hp, hu, flushCurrentSlide_metadata]
      · simp [processChartData, hj, hp, hu, flushCurrentSlide_metadata]
  · by_cases hc : csvLineTest text = true
    · cases hcp : parseCSVToChartData text with
      | none => simp [processChartData, hj, hc, hcp, flushCurrentSlide_metadata]
      | some cd =>
        by_cases hd : cd.datasets.length > 0
        · simp [processChartData, hj, hc, hcp, hd, flushCurrentSlide_metadata]
        · simp [processChartData, hj, hc, hcp, hd, flushCurrentSlide_metadata]
    · simp [processChartData, hj, hc, flushCurrentSlide_metadata]

/-- No block handler touches the metadata. -/
theorem step_metadata (opts : ConverterOptions) (jp : String → Option Json)
    (clock : String) (ctx : Ctx) (e : MdEvent) :
    (step opts jp clock ctx e).metadata = ctx.metadata := by
  cases e with
  | heading text level =>
    by_cases l1 : level = 1
    · simp [step, headingHandler, l1, flushCurrentSlide_metadata]
    · by_cases l2 : level = 2
      · simp [step, headingHandler, l1, l2, flushCurrentSlide_metadata]
      · by_cases l3 : level = 3
        · by_cases hbul : (flushCurrentSlide ctx).currentBullets.length > 0
          · simp [step, headingHandler, l1, l2, l3, hbul, flushCurrentSlide_metadata]
          · simp [step, headingHandler, l1, l2, l3, hbul, flushCurrentSlide_metadata]
        · simp [step, headingHandler, l1, l2, l3, flushCurrentSlide_metadata]
  | paragraph text =>
    by_cases hd : isDirective text = true
    · simp [step, paragraphHandler, hd, processDirective_metadata]
    · by_cases hc : isChartData text = true
      · simp [step, paragraphHandler, hd, hc, processChartData_metadata]
      · by_cases hin : (ctx.currentSlide.isSome || decide (ctx.currentBullets.length > 0)) = true
        · by_cases hcl : cleanText text ≠ ""
          · by_cases hsp : opts.autoSplit = true ∧
                opts.slidesPerPage ≤ ctx.currentBullets.length + 1
            · simp [step, paragraphHandler, hd, hc, hin, hcl, hsp, flushCurrentSlide_metadata]
            · simp [step, paragraphHandler, hd, hc, hin, hcl, hsp]
          · simp [step, paragraphHandler, hd, hc, hin, hcl]
        · simp [step, paragraphHandler, hd, hc, hin]
  | listItem text =>
    cases hcs : ctx.currentSlide with
    | none =>
      by_cases hsp : opts.autoSplit = true ∧
          opts.slidesPerPage ≤ ctx.currentBullets.length + 1
      · simp [step, listitemHandler, hcs, hsp, flushCurrentSlide_metadata]
      · simp [step, listitemHandler, hcs, hsp]
    | some cs =>
      by_cases hsp : opts.autoSplit = true ∧
          opts.slidesPerPage ≤ ctx.currentBullets.length + 1
      · simp [step, listitemHandler, hcs, hsp, flushCurrentSlide_metadata]
      · simp [step, listitemHandler, hcs, hsp]
  | table headers rows =>
    by_cases hct : isChartTable headers rows = true
    · simp [step, tableHandler, hct, flushCurrentSlide_metadata]
    · simp [step, tableHandler, hct, flushCurrentSlide_metadata]
  | image href title text => simp [step, imageHandler, flushCurrentSlide_metadata]
  | code c lang =>
    by_cases hch : (isChartData c || decide (lang = some "chart") ||
        decide (lang = some "csv")) = true
    · simp [step, codeHandler, hch, processChartData_metadata]
    · simp [step, codeHandler, hch, flushCurrentSlide_metadata]
  | blockquote q => simp [step, blockquoteHandler, flushCurrentSlide_metadata]
  | hr => simp [step, flushCurrentSlide_metadata]
  | html h =>
    simp only [step, htmlHandler]
    split
    · exact processDirective_metadata h ctx
    · rfl

/-- When the frontmatter supplies a nonempty date, no handler reads the
clock: a step is identical under any two clock values. -/
theorem step_clock (opts : ConverterOptions) (jp : String → Option Json)
    (c1 c2 : String) (ctx : Ctx) (e : MdEvent) (d : String)
    (hd : ctx.metadata.date = some d) (hne : d ≠ "") :
    step opts jp c1 ctx e = step opts jp c2 ctx e := by
  cases e with
  | heading text level =>
    simp only [step, headingHandler]
    by_cases l1 : level = 1
    · have hmd : (flushCurrentSlide ctx).metadata = ctx.metadata :=
        flushCurrentSlide_metadata ctx
      simp [l1, jsOrStr, hmd, hd, hne]
    · simp [l1]
  | paragraph text => rfl
  | listItem text => rfl
  | table headers rows => rfl
  | image href title text => rfl
  | code c lang => rfl
  | blockquote q => rfl
  | hr => rfl
  | html h => rfl

/-- Streaming a whole document is clock-independent when the frontmatter
supplies a nonempty date. -/
theorem runEvents_clock (opts : ConverterOptions) (jp : String → Option Json)
    (c1 c2 : String) : ∀ (events : List MdEvent) (ctx : Ctx) (d : String),
    ctx.metadata.date = some d → d ≠ "" →
    runEvents opts jp c1 events ctx = runEvents opts jp c2 events ctx := by
  intro events
  induction events with
  | nil => intro ctx d hd hne; rfl
  | cons e es ih =>
    intro ctx d hd hne
    rw [runEvents_cons, runEvents_cons,
      ← step_clock opts jp c1 c2 ctx e d hd hne]
    exact ih (step opts jp c1 ctx e) d (by rw [step_metadata]; exact hd) hne

/-- C7 (amended): conversion depends on no hidden mutable state except the
current date, and even that only through the `date` field of title slides
when the frontmatter has no (nonempty) `date`.  Whenever the frontmatter
supplies a nonempty date, two conversions of the same events at any two
clock readings produce structurally identical presentations. -/
theorem convert_deterministic_with_date (opts : ConverterOptions)
    (jp : String → Option Json) (c1 c2 : String) (md : Metadata)
    (events : List MdEvent) (d : String) (hd : md.date = some d) (hne : d ≠ "") :
    convert opts jp c1 md events = convert opts jp c2 md events := by
  unfold convert
  rw [runEvents_clock opts jp c1 c2 events (initCtx md) d hd hne]

/-- Witness for C7: with a frontmatter date, two different clock readings
agree on a concrete document. -/
theorem convert_deterministic_with_date_witness :
    convert defaultOptions jpNone "2025-01-01"
        { mdEmpty with date := some "2024-12-31" } [MdEvent.heading "T" 1] =
      convert defaultOptions jpNone "2025-01-02"
        { mdEmpty with date := some "2024-12-31" } [MdEvent.heading "T" 1] :=
  convert_deterministic_with_date defaultOptions jpNone "2025-01-01" "2025-01-02"
    { mdEmpty with date := some "2024-12-31" } [MdEvent.heading "T" 1]
    "2024-12-31" rfl (by decide)

/-- Appending one good slide preserves the invariant. -/
theorem ok_append {l : List Slide} {s0 : Slide} (hl : ∀ x ∈ l, slideTextOk x)
    (hs : slideTextOk s0) : ∀ x ∈ l ++ [s0], slideTextOk x := by
  intro x hx
  rcases List.mem_append.1 hx with hmem | hmem
  · exact hl x hmem
  · rw [List.mem_singleton] at hmem
    subst hmem
    exact hs

/-- The invariant only depends on the slides sequence. -/
theorem ctxSlidesOk_of_slides_eq {a b : Ctx} (h : b.slides = a.slides)
    (hok : ctxSlidesOk a) : ctxSlidesOk b := by
  intro s hs
  exact hok s (h ▸ hs)

/-- A context whose slides are a base context's slides plus one good slide
satisfies the invariant. -/
theorem ctxSlidesOk_push {c r : Ctx} {x : Slide}
    (hs : r.slides = c.slides ++ [x]) (hok : ctxSlidesOk c)
    (hx : slideTextOk x) : ctxSlidesOk r := by
  intro s hmem
  rw [hs] at hmem
  exact ok_append hok hx s hmem

/-- The assembler preserves the empty-slide invariant: it only ever emits
a text slide with the (nonempty) pending bullets, or a pending skeleton
that is not an empty text slide. -/
theorem flushCurrentSlide_ok (ctx : Ctx) (h : ctxSlidesOk ctx) :
    ctxSlidesOk (flushCurrentSlide ctx) := by
  by_cases hb : ctx.currentBullets.length > 0
  · have hnn : ctx.currentBullets ≠ [] := by
      intro hnil
      rw [hnil] at hb
      simp at hb
    refine ctxSlidesOk_push (x :=
      { core := SlideCore.textS
          (some (jsOrStr (ctx.currentSlide.bind CurrentSlide.title) "Content"))
          ctx.currentBullets
          (if ctx.currentLevel.length > 0 then some ctx.currentLevel else none),
        notes := ctx.currentSlide.bind CurrentSlide.notes, slideNumber := none })
      ?_ h ?_
    · simp [flushCurrentSlide, hb]
    · intro t bs lv hcore
      simp only [SlideCore.textS.injEq] at hcore
      rw [← hcore.2.1]
      exact hnn
  · cases hcs : ctx.currentSlide with
    | none => exact ctxSlidesOk_of_slides_eq (by simp [flushCurrentSlide, hb, hcs]) h
    | some cs =>
      by_cases hd : cs.layout = CSLayout.text ∧ (cs.bullets = none ∨ cs.bullets = some [])
      · exact ctxSlidesOk_of_slides_eq (by simp [flushCurrentSlide, hb, hcs, hd]) h
      · refine ctxSlidesOk_push (x := toSlide cs) (by simp [flushCurrentSlide, hb, hcs, hd]) h ?_
        cases hlay : cs.layout with
        | chart => simp [slideTextOk, toSlide, hlay]
        | text =>
          have hbul : cs.bullets ≠ none ∧ cs.bullets ≠ some [] := by
            constructor <;> { intro hx; exact hd ⟨hlay, by simp [hx]⟩ }
          rcases hbl : cs.bullets with _ | bl
          · exact absurd hbl hbul.1
          · rcases bl with _ | ⟨z, w⟩
            · exact absurd hbl hbul.2
            · intro t bs lv hcore
              simp only [toSlide, hlay, hbl] at hcore
              simp only [SlideCore.textS.injEq] at hcore
              rw [← hcore.2.1]
              simp

/-- `setLastNotes` keeps every slide's core, hence the invariant. -/
theorem setLastNotes_ok (n : String) : ∀ (l : List Slide),
    (∀ x ∈ l, slideTextOk x) → ∀ x ∈ setLastNotes n l, slideTextOk x := by
  intro l
  induction l with
  | nil => intro _ x hx; cases hx
  | cons s rest ih =>
    intro h x hx
    cases rest with
    | nil =>
      simp only [setLastNotes, List.mem_singleton] at hx
      subst hx
      intro t bs lv hcore
      exact h s (List.mem_singleton_self s) t bs lv hcore
    | cons s2 rest2 =>
      rw [setLastNotes] at hx
      rcases List.mem_cons.1 hx with rfl | hmem
      · exact h x (List.mem_cons_self x (s2 :: rest2))
      · exact ih (fun y hy => h y (List.mem_cons_of_mem s hy)) x hmem

/-- The directive processor preserves the empty-slide invariant. -/
theorem processDirective_ok (text : String) (ctx : Ctx) (h : ctxSlidesOk ctx) :
    ctxSlidesOk (processDirective text ctx) := by
  cases h1 : matchComment "slide:" text with
  | some content =>
    by_cases h2 : getParam (parseDirectiveParams content) "type" = some "custom"
    · refine ctxSlidesOk_push (c := flushCurrentSlide ctx) (x :=
        { core := SlideCore.customS
            (some (jsOrStr (getParam (parseDirectiveParams content) "title") "Custom Slide"))
            (getParam (parseDirectiveParams content) "elements"),
          notes := none, slideNumber := none })
        (by simp [processDirective, h1, h2]) (flushCurrentSlide_ok ctx h) ?_
      simp [slideTextOk]
    · exact ctxSlidesOk_of_slides_eq (by simp [processDirective, h1, h2]) h
  | none =>
    cases h3 : matchComment "notes:" text with
    | some content =>
      cases h4 : ctx.currentSlide with
      | some cs => exact ctxSlidesOk_of_slides_eq (by simp [processDirective, h1, h3, h4]) h
      | none =>
        intro s hs
        simp only [processDirective, h1, h3, h4] at hs
        exact setLastNotes_ok _ ctx.slides h s hs
    | none =>
      cases h5 : matchComment "chart:" text with
      | some content => exact ctxSlidesOk_of_slides_eq (by simp [processDirective, h1, h3, h5]) h
      | none => exact ctxSlidesOk_of_slides_eq (by simp [processDirective, h1, h3, h5]) h

/-- The chart processor preserves the empty-slide invariant (it only ever
pushes chart slides beyond the flush). -/
theorem processChartData_ok (jp : String → Option Json) (text : String) (ctx : Ctx)
    (h : ctxSlidesOk ctx) : ctxSlidesOk (processChartData jp text ctx) := by
  by_cases hj : jsonShapeTest text = true
  · cases hp : jp text with
    | none =>
      exact ctxSlidesOk_of_slides_eq (by simp [processChartData, hj, hp])
        (flushCurrentSlide_ok ctx h)
    | some j =>
      by_cases hu : jsonChartUsable j = true
      · refine ctxSlidesOk_push (c := flushCurrentSlide ctx) (x :=
          { core := SlideCore.chartS
              (some (jsOrStr ((flushCurrentSlide ctx).currentSlide.bind CurrentSlide.title)
                "Chart"))
              (some (jsonChartType j)) (some (jsonChartPayload j)),
            notes := none, slideNumber := none })
          (by simp [processChartData, hj, hp, hu]) (flushCurrentSlide_ok ctx h) ?_
        simp [slideTextOk]
      · exact ctxSlidesOk_of_slides_eq (by simp [processChartData, hj, hp, hu])
          (flushCurrentSlide_ok ctx h)
  · by_cases hc : csvLineTest text = true
    · cases hcp : parseCSVToChartData text with
      | none =>
        exact ctxSlidesOk_of_slides_eq (by simp [processChartData, hj, hc, hcp])
          (flushCurrentSlide_ok ctx h)
      | some cd =>
        by_cases hd : cd.datasets.length > 0
        · refine ctxSlidesOk_push (c := flushCurrentSlide ctx) (x :=
            { core := SlideCore.chartS
                (some (jsOrStr ((flushCurrentSlide ctx).currentSlide.bind CurrentSlide.title)
                  "Chart"))
                (some "bar") (some (ChartPayload.parsed cd)),
              notes := none, slideNumber := none })
            (by simp [processChartData, hj, hc, hcp, hd]) (flushCurrentSlide_ok ctx h) ?_
          simp [slideTextOk]
        · exact ctxSlidesOk_of_slides_eq (by simp [processChartData, hj, hc, hcp, hd])
            (flushCurrentSlide_ok ctx h)
    · exact ctxSlidesOk_of_slides_eq (by simp [processChartData, hj, hc])
        (flushCurrentSlide_ok ctx h)

/-- Every block handler preserves the empty-slide invariant. -/
theorem step_ok (opts : ConverterOptions) (jp : String → Option Json) (clock : String)
    (ctx : Ctx) (e : MdEvent) (h : ctxSlidesOk ctx) :
    ctxSlidesOk (step opts jp clock ctx e) := by
  cases e with
  | heading text level =>
    by_cases l1 : level = 1
    · refine ctxSlidesOk_push (c := flushCurrentSlide ctx) (x :=
        { core := SlideCore.titleS (some (cleanText text))
            (flushCurrentSlide ctx).metadata.subtitle (flushCurrentSlide ctx).metadata.author
            (some (jsOrStr (flushCurrentSlide ctx).metadata.date clock)) none,
          notes := none, slideNumber := none })
        (by simp [step, headingHandler, l1]) (flushCurrentSlide_ok ctx h) (by simp [slideTextOk])
    · by_cases l2 : level = 2
      · refine ctxSlidesOk_push (c := flushCurrentSlide ctx) (x :=
          { core := SlideCore.titleS (some (cleanText text)) none none none (some "#2C3E50"),
            notes := none, slideNumber := none })
          (by simp [step, headingHandler, l1, l2]) (flushCurrentSlide_ok ctx h)
          (by simp [slideTextOk])
      · by_cases l3 : level = 3
        · by_cases hbul : (flushCurrentSlide ctx).currentBullets.length > 0
          · exact ctxSlidesOk_of_slides_eq (by simp [step, headingHandler, l1, l2, l3, hbul])
              (flushCurrentSlide_ok ctx h)
          · exact ctxSlidesOk_of_slides_eq (by simp [step, headingHandler, l1, l2, l3, hbul])
              (flushCurrentSlide_ok ctx h)
        · exact ctxSlidesOk_of_slides_eq (by simp [step, headingHandler, l1, l2, l3])
            (flushCurrentSlide_ok ctx h)
  | paragraph text =>
    by_cases hd : isDirective text = true
    · intro s hs
      simp only [step, paragraphHandler, hd, if_pos] at hs
      exact processDirective_ok text ctx h s hs
    · by_cases hc : isChartData text = true
      · intro s hs
        simp only [step, paragraphHandler, hd, hc] at hs
        simp at hs
        exact processChartData_ok jp text ctx h s hs
      · by_cases hin : (ctx.currentSlide.isSome || decide (ctx.currentBullets.length > 0)) = true
        · by_cases hcl : cleanText text ≠ ""
          · by_cases hsp : opts.autoSplit = true ∧
                opts.slidesPerPage ≤ ctx.currentBullets.length + 1
            · have hmid : ctxSlidesOk
                  { ctx with
                      currentBullets := ctx.currentBullets ++ [cleanText text],
                      currentLevel := ctx.currentLevel ++ [0] } :=
                ctxSlidesOk_of_slides_eq rfl h
              exact ctxSlidesOk_of_slides_eq
                (by simp [step, paragraphHandler, hd, hc, hin, hcl, hsp])
                (flushCurrentSlide_ok _ hmid)
            · exact ctxSlidesOk_of_slides_eq
                (by simp [step, paragraphHandler, hd, hc, hin, hcl, hsp]) h
          · exact ctxSlidesOk_of_slides_eq
              (by simp [step, paragraphHandler, hd, hc, hin, hcl]) h
        · exact ctxSlidesOk_of_slides_eq (by simp [step, paragraphHandler, hd, hc, hin]) h
  | listItem text =>
    cases hcs : ctx.currentSlide with
    | none =>
      by_cases hsp : opts.autoSplit = true ∧
          opts.slidesPerPage ≤ ctx.currentBullets.length + 1
      · have hmid : ctxSlidesOk
            { ctx with
                currentSlide := some contentSkeleton,
                currentBullets := ctx.currentBullets ++ [cleanText text],
                currentLevel := ctx.currentLevel ++ [detectIndentLevel text] } :=
          ctxSlidesOk_of_slides_eq rfl h
        exact ctxSlidesOk_of_slides_eq (by simp [step, listitemHandler, hcs, hsp])
          (flushCurrentSlide_ok _ hmid)
      · exact ctxSlidesOk_of_slides_eq (by simp [step, listitemHandler, hcs, hsp]) h
    | some cs =>
      by_cases hsp : opts.autoSplit = true ∧
          opts.slidesPerPage ≤ ctx.currentBullets.length + 1
      · have hmid : ctxSlidesOk
            { ctx with
                currentBullets := ctx.currentBullets ++ [cleanText text],
                currentLevel := ctx.currentLevel ++ [detectIndentLevel text] } :=
          ctxSlidesOk_of_slides_eq rfl h
        exact ctxSlidesOk_of_slides_eq (by simp [step, listitemHandler, hcs, hsp])
          (flushCurrentSlide_ok _ hmid)
      · exact ctxSlidesOk_of_slides_eq (by simp [step, listitemHandler, hcs, hsp]) h
  | table headers rows =>
    by_cases hct : isChartTable headers rows = true
    · refine ctxSlidesOk_of_slides_eq (a :=
        { flushCurrentSlide ctx with slides := (flushCurrentSlide ctx).slides ++
            [createChartFromTable headers rows (flushCurrentSlide ctx)] })
        (by simp [step, tableHandler, hct]) ?_
      exact ctxSlidesOk_push rfl (flushCurrentSlide_ok ctx h)
        (by simp [slideTextOk, createChartFromTable])
    · refine ctxSlidesOk_of_slides_eq (a :=
        { flushCurrentSlide ctx with slides := (flushCurrentSlide ctx).slides ++
            [{ core := SlideCore.tableS
                 (some (jsOrStr ((flushCurrentSlide ctx).currentSlide.bind CurrentSlide.title)
                   "Data Table"))
                 headers rows defaultTableStyling,
               notes := none, slideNumber := none }] })
        (by simp [step, tableHandler, hct]) ?_
      exact ctxSlidesOk_push rfl (flushCurrentSlide_ok ctx h) (by simp [slideTextOk])
  | image href title text =>
    refine ctxSlidesOk_push (c := flushCurrentSlide ctx) (x :=
      { core := SlideCore.imageS (some (jsOrStr title (jsOrStr (some text) "Image")))
          (if startsWithL "http".toList href.toList then some href else none)
          (if startsWithL "http".toList href.toList then none else some href)
          text "contain",
        notes := none, slideNumber := none })
      (by simp [step, imageHandler]) (flushCurrentSlide_ok ctx h) (by simp [slideTextOk])
  | code c lang =>
    by_cases hch : (isChartData c || decide (lang = some "chart") ||
        decide (lang = some "csv")) = true
    · intro s hs
      simp only [step, codeHandler, hch, if_pos] at hs
      exact processChartData_ok jp c ctx h s hs
    · refine ctxSlidesOk_push (c := flushCurrentSlide ctx) (x :=
        { core := SlideCore.notesS (some ("Code: " ++ jsOrStr lang "snippet")) c,
          notes := none, slideNumber := none })
        (by simp [step, codeHandler, hch]) (flushCurrentSlide_ok ctx h) (by simp [slideTextOk])
  | blockquote q =>
    refine ctxSlidesOk_push (c := flushCurrentSlide ctx) (x :=
      { core := SlideCore.notesS (some "Note") (cleanText q),
        notes := none, slideNumber := none })
      (by simp [step, blockquoteHandler]) (flushCurrentSlide_ok ctx h) (by simp [slideTextOk])
  | hr => exact ctxSlidesOk_of_slides_eq (by simp [step]) (flushCurrentSlide_ok ctx h)
  | html hh =>
    intro s hs
    simp only [step, htmlHandler] at hs
    split at hs
    · exact processDirective_ok hh ctx h s hs
    · exact h s hs

/-- The whole event stream preserves the empty-slide invariant. -/
theorem runEvents_ok (opts : ConverterOptions) (jp : String → Option Json)
    (clock : String) : ∀ (events : List MdEvent) (ctx : Ctx), ctxSlidesOk ctx →
    ctxSlidesOk (runEvents opts jp clock events ctx) := by
  intro events
  induction events with
  | nil => intro ctx h; exact h
  | cons e es ih =>
    intro ctx h
    rw [runEvents_cons]
    exact ih (step opts jp clock ctx e) (step_ok opts jp clock ctx e h)

/-- The table-of-contents post-processor only inserts a text slide with a
nonempty bullets list. -/
theorem insertTableOfContents_ok (p : Presentation)
    (h : ∀ s ∈ p.slides, slideTextOk s) :
    ∀ s ∈ (insertTableOfContents p).slides, slideTextOk s := by
  intro s hs
  by_cases htoc : (sectionTitlesOf p.slides).length > 0
  · simp only [insertTableOfContents, htoc, if_pos] at hs
    rcases List.mem_append.1 hs with hs1 | hs2
    · rcases List.mem_append.1 hs1 with hs3 | hs4
      · exact h s (List.take_subset _ _ hs3)
      · rw [List.mem_singleton] at hs4
        subst hs4
        intro t bs lv hcore
        simp only [SlideCore.textS.injEq] at hcore
        rw [← hcore.2.1]
        intro hnil
        rw [hnil] at htoc
        simp at htoc
    · exact h s (List.drop_subset _ _ hs2)
  · simp only [insertTableOfContents, htoc] at hs
    simp at hs
    exact h s hs

/-- The slide-numbering post-processor keeps every slide's core. -/
theorem addSlideNumbers_ok (p : Presentation) (h : ∀ s ∈ p.slides, slideTextOk s) :
    ∀ s ∈ (addSlideNumbers p).slides, slideTextOk s := by
  intro s hs
  simp only [addSlideNumbers] at hs
  rcases List.mem_map.1 hs with ⟨q, hq, rfl⟩
  have hq2 : q.2 ∈ p.slides := by
    have hmem := List.mem_map_of_mem Prod.snd hq
    rwa [List.enum_map_snd] at hmem
  by_cases ht : isTitleLayout q.2 = true
  · simpa [ht] using h q.2 hq2
  · simp only [ht, Bool.false_eq_true, if_false]
    intro t bs lv hcore
    exact h q.2 hq2 t bs lv hcore

/-- C1: for every input document (event stream), frontmatter, options,
JSON oracle and clock, no text-layout slide in the converter's output has
an empty bullets list: the assembler discards bullet-less text skeletons
instead of pushing them (and every other emission site pushes either a
non-text slide or a text slide built from nonempty pending bullets); in
particular a level-3 heading immediately followed by another heading
contributes no empty text slide. -/
theorem no_empty_text_slides (opts : ConverterOptions) (jp : String → Option Json)
    (clock : String) (md : Metadata) (events : List MdEvent) :
    ∀ s ∈ (convert opts jp clock md events).slides, slideTextOk s := by
  have hrun : ctxSlidesOk (flushCurrentSlide (runEvents opts jp clock events (initCtx md))) :=
    flushCurrentSlide_ok _
      (runEvents_ok opts jp clock events (initCtx md) (by intro s hs; cases hs))
  intro s hs
  simp only [convert] at hs
  split at hs
  · refine addSlideNumbers_ok _ ?_ s hs
    intro s2 hs2
    split at hs2
    · exact insertTableOfContents_ok _ (fun s3 hs3 => hrun s3 hs3) s2 hs2
    · exact hrun s2 hs2
  · split at hs
    · exact insertTableOfContents_ok _ (fun s3 hs3 => hrun s3 hs3) s hs
    · exact hrun s hs

/-- Witness for C1: the one text slide produced by a single list item has
the (nonempty) bullet list `["hello"]`. -/
theorem no_empty_text_slides_witness : (["hello"] : List String) ≠ [] :=
  no_empty_text_slides defaultOptions jpNone "" mdEmpty [MdEvent.listItem "hello"]
    { core := SlideCore.textS (some "Content") ["hello"] (some [0]),
      notes := none, slideNumber := none }
    (by decide) (some "Content") ["hello"] (some [0]) rfl
